import Mathlib

/-!
Shallow embedding of the stock screening data processor
(services/dataProcessor.ts) of the investradar repository, together with
proofs about its normalization and ranking pipeline.

Modelling conventions:
- JavaScript numbers are modelled by `JN`: an exact rational for finite
  values plus the three non-finite values NaN, -Infinity, +Infinity.
  IEEE double rounding is abstracted to exact rational arithmetic, per the
  stated non-goal of precision guarantees beyond doubles.
- JavaScript strings are modelled as `List Char`; an possibly-undefined
  value (a cell read out of range) is `Option (List Char)` with `none`
  for undefined.  Indexing with `row[i]` is `List.get?`.
- Rational arithmetic is written with `mkRat`-based helper functions
  (`qadd`, `qsub`, `qmul`, `qdiv`, `qneg`, `qnat`) because the library
  field operations on `Rat` are irreducible and would block evaluation;
  the theorem section proves each helper equal to the field operation.
- `Array.prototype.sort` with a consistent comparator is, by the
  ECMAScript specification, the unique stable sort for the induced key
  order.  A stable sort by key is the sort of the index-annotated list
  by the lexicographic order (key, original index), which is how
  `stableSortEnum` models it.  The comparators of the source derive the
  key from each record: missing sentinels are remapped to the worst key
  (top) for the current direction, matching lines 195-201 and 240-244 of
  the source.  A comparator fed NaN is inconsistent and the sort order is
  then implementation-defined; theorems about the final ordering
  therefore assume no NaN price difference.
-/

namespace InvestRadar

/-- JavaScript number: NaN, -Infinity, +Infinity, or a finite value
(modelled as an exact rational). -/
inductive JN where
  | nan : JN
  | negInf : JN
  | posInf : JN
  | fin (q : ℚ) : JN
deriving DecidableEq

/-- Rational from a natural number, via `mkRat` so that it evaluates. -/
def qnat (n : ℕ) : ℚ := mkRat n 1

/-- Addition on rationals via `mkRat` (evaluation-friendly). -/
def qadd (a b : ℚ) : ℚ := mkRat (a.num * b.den + b.num * a.den) (a.den * b.den)

/-- Subtraction on rationals via `mkRat` (evaluation-friendly). -/
def qsub (a b : ℚ) : ℚ := mkRat (a.num * b.den - b.num * a.den) (a.den * b.den)

/-- Multiplication on rationals via `mkRat` (evaluation-friendly). -/
def qmul (a b : ℚ) : ℚ := mkRat (a.num * b.num) (a.den * b.den)

/-- Negation on rationals via `mkRat` (evaluation-friendly). -/
def qneg (a : ℚ) : ℚ := mkRat (-a.num) a.den

/-- Division on rationals via `mkRat` (evaluation-friendly); division by
zero yields zero, which is never reached by the embedded code because
every division site is guarded. -/
def qdiv (a b : ℚ) : ℚ :=
  if b.num < 0 then mkRat (-(a.num * b.den)) (a.den * b.num.natAbs)
  else mkRat (a.num * b.den) (a.den * b.num.natAbs)

/-- JavaScript strings as character lists. -/
abbrev JStr := List Char

/-- A possibly undefined string value (an out-of-range indexed cell). -/
abbrev Cell := Option JStr

/-- Whitespace test used by trim; the ASCII fragment of the JavaScript
whitespace class, which covers every input the pipeline handles. -/
def wsp (c : Char) : Bool := c.isWhitespace

/-- Model of String.prototype.trim. -/
def jsTrim (s : JStr) : JStr := ((s.dropWhile wsp).reverse.dropWhile wsp).reverse

/-- Model of String.prototype.split with a single-character separator:
splitting the empty string yields one empty field, separators at the
ends yield empty fields. -/
def splitOnChar (sep : Char) : JStr → List JStr
  | [] => [[]]
  | c :: cs =>
    match splitOnChar sep cs with
    | [] => [[]]
    | h :: t => if c = sep then [] :: h :: t else (c :: h) :: t

/-- ASCII lower-casing of one character, the fragment of
String.prototype.toLowerCase the header check can observe. -/
def asciiLower (c : Char) : Char :=
  if 'A' ≤ c ∧ c ≤ 'Z' then Char.ofNat (c.toNat + 32) else c

/-- Model of String.prototype.toLowerCase (ASCII fragment). -/
def jsToLowerCase (s : JStr) : JStr := s.map asciiLower

/-- Model of String.prototype.replace with a one-character string
pattern: only the first occurrence is replaced. -/
def replaceFirst (a b : Char) : JStr → JStr
  | [] => []
  | c :: cs => if c = a then b :: cs else c :: replaceFirst a b cs

/-- Characters removed by the first cleaning step of parseBRNumber, the
regular expression class [R$%\s]. -/
def strippedChar (c : Char) : Bool := c == 'R' || c == '$' || c == '%' || c.isWhitespace

/-- Cleaning pipeline of parseBRNumber (source lines 7-9): strip currency
and percent markers and whitespace, delete every dot (thousands
separator), then turn the first comma into a decimal point. -/
def cleanBR (s : JStr) : JStr :=
  replaceFirst ',' '.' ((s.filter (fun c => !(strippedChar c))).filter (fun c => c ≠ '.'))

/-- Value of a digit string, most significant first. -/
def digitsVal (ds : JStr) : ℕ := ds.foldl (fun n c => 10 * n + (c.toNat - 48)) 0

/-- Ten to an integer power, as an evaluation-friendly rational. -/
def pow10 (e : ℤ) : ℚ := if 0 ≤ e then qnat (10 ^ e.toNat) else mkRat 1 (10 ^ (-e).toNat)

/-- Optional sign at the front of a numeric literal; true means minus. -/
def signSplit (s : JStr) : Bool × JStr :=
  match s with
  | [] => (false, [])
  | c :: r => if c = '-' then (true, r) else if c = '+' then (false, r) else (false, c :: r)

/-- Optional fraction after the integer digits: a dot starts the
fraction, anything else leaves the remainder untouched. -/
def fracSplit (rest1 : JStr) : JStr × JStr :=
  match rest1 with
  | '.' :: r => (r.takeWhile Char.isDigit, r.dropWhile Char.isDigit)
  | _ => ([], rest1)

/-- Exponent suffix of a decimal literal: (e|E)(+|-)?digits; absent or
incomplete exponents contribute zero, as parseFloat takes the longest
valid prefix. -/
def expPart (cs : JStr) : ℤ :=
  match cs with
  | c :: rest =>
    if c = 'e' ∨ c = 'E' then
      let p := signSplit rest
      let ds := p.2.takeWhile Char.isDigit
      if ds.isEmpty then 0
      else if p.1 then -(digitsVal ds : ℤ) else (digitsVal ds : ℤ)
    else 0
  | [] => 0

/-- Value of a decimal literal from its integer digits, fraction digits
and exponent remainder: (int.frac) times ten to the exponent. -/
def jsMant (intDs : JStr) (fr : JStr × JStr) : ℚ :=
  qmul (qadd (qnat (digitsVal intDs)) (mkRat (digitsVal fr.1) (10 ^ fr.1.length)))
    (pow10 (expPart fr.2))

/-- Decimal-literal result given the scanned pieces: NaN when no digit
was found at all, the signed value otherwise. -/
def jsBuildNum (neg : Bool) (intDs : JStr) (fr : JStr × JStr) : JN :=
  if intDs.isEmpty ∧ fr.1.isEmpty then JN.nan
  else JN.fin (if neg then qneg (jsMant intDs fr) else jsMant intDs fr)

/-- Unsigned part of parseFloat: the literal Infinity, or a decimal
literal scanned as integer digits, optional fraction and exponent. -/
def jsParseFloatCore (neg : Bool) (cs : JStr) : JN :=
  if ("Infinity").data.isPrefixOf cs then (if neg then JN.negInf else JN.posInf)
  else jsBuildNum neg (cs.takeWhile Char.isDigit) (fracSplit (cs.dropWhile Char.isDigit))

/-- Model of the global parseFloat: longest valid prefix of an optional
sign followed by either the literal Infinity or a decimal literal with
optional fraction and exponent; no valid prefix gives NaN.  The input
has already been stripped of whitespace by the caller. -/
def jsParseFloat (s : JStr) : JN :=
  jsParseFloatCore (signSplit s).1 (signSplit s).2

/-- Model of parseBRNumber (source lines 4-13): undefined or empty input
is -Infinity; otherwise clean the string and parse it, mapping NaN to
-Infinity. -/
def parseBRNumber (s : Cell) : JN :=
  match s with
  | none => JN.negInf
  | some cs =>
    if cs.isEmpty then JN.negInf
    else
      match jsParseFloat (cleanBR cs) with
      | JN.nan => JN.negInf
      | v => v

/-- Model of parseBRNumberAsc (source lines 16-19). -/
def parseBRNumberAsc (s : Cell) : JN :=
  if parseBRNumber s = JN.negInf then JN.posInf else parseBRNumber s

/-- JavaScript subtraction on JN values. -/
def jSub : JN → JN → JN
  | JN.nan, _ => JN.nan
  | _, JN.nan => JN.nan
  | JN.posInf, JN.posInf => JN.nan
  | JN.posInf, _ => JN.posInf
  | JN.negInf, JN.negInf => JN.nan
  | JN.negInf, _ => JN.negInf
  | JN.fin _, JN.posInf => JN.negInf
  | JN.fin _, JN.negInf => JN.posInf
  | JN.fin a, JN.fin b => JN.fin (qsub a b)

/-- JavaScript division on JN values (negative zero is identified with
zero, which no guarded call site can distinguish). -/
def jDiv : JN → JN → JN
  | JN.nan, _ => JN.nan
  | _, JN.nan => JN.nan
  | JN.posInf, JN.posInf => JN.nan
  | JN.posInf, JN.negInf => JN.nan
  | JN.posInf, JN.fin b => if b < 0 then JN.negInf else JN.posInf
  | JN.negInf, JN.posInf => JN.nan
  | JN.negInf, JN.negInf => JN.nan
  | JN.negInf, JN.fin b => if b < 0 then JN.posInf else JN.negInf
  | JN.fin _, JN.posInf => JN.fin 0
  | JN.fin _, JN.negInf => JN.fin 0
  | JN.fin a, JN.fin b =>
    if b = 0 then (if a = 0 then JN.nan else if a < 0 then JN.negInf else JN.posInf)
    else JN.fin (qdiv a b)

/-- JavaScript multiplication by the positive constant 100. -/
def jMul100 : JN → JN
  | JN.nan => JN.nan
  | JN.posInf => JN.posInf
  | JN.negInf => JN.negInf
  | JN.fin a => JN.fin (qmul a (qnat 100))

/-- JavaScript comparison v > 0 on JN values. -/
def jGtZero : JN → Bool
  | JN.posInf => true
  | JN.fin q => decide (0 < q)
  | _ => false

/-- Two-digit zero-padded numeral for the fraction part of toFixed. -/
def natPad2 (n : ℕ) : JStr := if n < 10 then '0' :: (toString n).data else (toString n).data

/-- Model of Number.prototype.toFixed(2) on a finite value: round to the
nearest hundredth, ties away from the sign (the larger n of the
specification), then print with exactly two fraction digits. -/
def toFixed2 (q : ℚ) : JStr :=
  let sgn : JStr := if q < 0 then ['-'] else []
  let x : ℚ := if q < 0 then qneg q else q
  let n : ℕ := (200 * x.num.toNat + x.den) / (2 * x.den)
  sgn ++ (toString (n / 100)).data ++ '.' :: natPad2 (n % 100)

/-- Model of Number.prototype.toFixed(2) on every JN value. -/
def jToFixed2 : JN → JStr
  | JN.nan => ("NaN").data
  | JN.posInf => ("Infinity").data
  | JN.negInf => ("-Infinity").data
  | JN.fin q => toFixed2 q

/-- Sort directions, from types.ts. -/
inductive SortOrder where
  | ASC : SortOrder
  | DESC : SortOrder
deriving DecidableEq

/-- The StockData record, from types.ts.  Numeric fields are JN values;
the display row keeps possibly-undefined cells. -/
structure StockData where
  id : JStr
  raw : List Cell
  ticker : Cell
  company : Cell
  sector : Cell
  plProjected : JN
  plDeviation : JN
  dy : JN
  marginSafety : JN
  cagr : JN
  debtEbitda : JN
  currentPrice : JN
  fairPrice : JN
  priceDiff : JN
  rankPL : ℕ
  rankDeviation : ℕ
  rankDY : ℕ
  rankMargin : ℕ
  rankCAGR : ℕ
  rankDebt : ℕ
  rankTotal : ℕ
  rankGeneral : ℕ
deriving DecidableEq

/-- Sort key realised by the comparator of applyRank (source lines
195-201): both infinite sentinels are remapped to the worst key for the
current direction; a finite value keys as itself ascending and as its
negation descending.  NaN never reaches a ranked metric field. -/
def rankKey (ord : SortOrder) : JN → WithTop ℚ
  | JN.fin q => ((if ord = SortOrder.ASC then q else qneg q : ℚ) : WithTop ℚ)
  | _ => ⊤

/-- Sort key realised by the final default-sort comparator (source lines
240-244): -Infinity is remapped to +Infinity, and +Infinity already
sorts last, so both key as top. -/
def finalKey : JN → WithTop ℚ
  | JN.fin q => (q : WithTop ℚ)
  | _ => ⊤

/-- Lexicographic order on (original index, record) pairs induced by a
key: strictly smaller key first, ties by original position.  A stable
sort by key is exactly a sort by this order. -/
def lexLe (k : StockData → WithTop ℚ) (a b : ℕ × StockData) : Prop :=
  k a.2 < k b.2 ∨ (k a.2 = k b.2 ∧ a.1 ≤ b.1)

instance (k : StockData → WithTop ℚ) : DecidableRel (lexLe k) := fun _ _ =>
  inferInstanceAs (Decidable (_ ∨ _))

instance (k : StockData → WithTop ℚ) : IsTotal (ℕ × StockData) (lexLe k) where
  total a b := by
    rcases lt_trichotomy (k a.2) (k b.2) with h | h | h
    · exact Or.inl (Or.inl h)
    · rcases Nat.le_total a.1 b.1 with h1 | h1
      · exact Or.inl (Or.inr ⟨h, h1⟩)
      · exact Or.inr (Or.inr ⟨h.symm, h1⟩)
    · exact Or.inr (Or.inl h)

instance (k : StockData → WithTop ℚ) : IsTrans (ℕ × StockData) (lexLe k) where
  trans _ _ _ hab hbc := by
    rcases hab with h1 | ⟨h1, h1i⟩ <;> rcases hbc with h2 | ⟨h2, h2i⟩
    · exact Or.inl (h1.trans h2)
    · exact Or.inl (h2 ▸ h1)
    · exact Or.inl (h1 ▸ h2)
    · exact Or.inr ⟨h1.trans h2, h1i.trans h2i⟩

/-- Stable sort of a record list by a key, realised as a sort of the
index-annotated list by the lexicographic (key, index) order. -/
def stableSortEnum (k : StockData → WithTop ℚ) (l : List StockData) : List (ℕ × StockData) :=
  List.insertionSort (lexLe k) l.enum

/-- The sorted record list itself. -/
def stableSortKey (k : StockData → WithTop ℚ) (l : List StockData) : List StockData :=
  (stableSortEnum k l).map Prod.snd

/-- Model of applyRank (source lines 194-203): stable-sort the record
array by the remapped key of the chosen metric, then store position + 1
into the chosen rank field of each record. -/
def applyRank (get : StockData → JN) (set : StockData → ℕ → StockData)
    (ord : SortOrder) (stocks : List StockData) : List StockData :=
  ((stableSortKey (fun s => rankKey ord (get s)) stocks).enum).map (fun p => set p.2 (p.1 + 1))

/-- Source line 205: rank by projected P/L, ascending. -/
def stagePL (l : List StockData) : List StockData :=
  applyRank (fun s => s.plProjected) (fun s r => { s with rankPL := r }) SortOrder.ASC l

/-- Source line 206: rank by P/L deviation, ascending. -/
def stageDeviation (l : List StockData) : List StockData :=
  applyRank (fun s => s.plDeviation) (fun s r => { s with rankDeviation := r }) SortOrder.ASC l

/-- Source line 207: rank by dividend yield, descending. -/
def stageDY (l : List StockData) : List StockData :=
  applyRank (fun s => s.dy) (fun s r => { s with rankDY := r }) SortOrder.DESC l

/-- Source line 208: rank by margin of safety, descending. -/
def stageMargin (l : List StockData) : List StockData :=
  applyRank (fun s => s.marginSafety) (fun s r => { s with rankMargin := r }) SortOrder.DESC l

/-- Source line 209: rank by CAGR, descending. -/
def stageCAGR (l : List StockData) : List StockData :=
  applyRank (fun s => s.cagr) (fun s r => { s with rankCAGR := r }) SortOrder.DESC l

/-- Source line 210: rank by debt/EBITDA, ascending. -/
def stageDebt (l : List StockData) : List StockData :=
  applyRank (fun s => s.debtEbitda) (fun s r => { s with rankDebt := r }) SortOrder.ASC l

/-- Source lines 213-215: the total rank of one record. -/
def setTotal (s : StockData) : StockData :=
  { s with rankTotal :=
      s.rankPL + s.rankDeviation + s.rankDY + s.rankMargin + s.rankCAGR + s.rankDebt }

/-- Source lines 213-215: store the rank sums. -/
def stageTotal (l : List StockData) : List StockData := l.map setTotal

/-- Source line 218: rank by the total, ascending. -/
def stageGeneral (l : List StockData) : List StockData :=
  applyRank (fun s => JN.fin (qnat s.rankTotal)) (fun s r => { s with rankGeneral := r })
    SortOrder.ASC l

/-- Source lines 226-235: a record whose display row holds at least 30
cells gets the eight computed ranks written into row positions 0 and 2
through 8; shorter rows are untouched. -/
def writeBackRank (s : StockData) : StockData :=
  if 30 ≤ s.raw.length then
    { s with raw :=
        ((((((((s.raw.set 0 (some (toString s.rankGeneral).data)).set 2
          (some (toString s.rankPL).data)).set 3
          (some (toString s.rankDeviation).data)).set 4
          (some (toString s.rankDY).data)).set 5
          (some (toString s.rankMargin).data)).set 6
          (some (toString s.rankCAGR).data)).set 7
          (some (toString s.rankDebt).data)).set 8
          (some (toString s.rankTotal).data)) }
  else s

/-- Source lines 222-237: the write-back loop runs only when the list is
nonempty and the first display row holds at least 9 cells. -/
def writeBackStage (stocks : List StockData) : List StockData :=
  match stocks with
  | [] => stocks
  | s0 :: _ => if 9 ≤ s0.raw.length then stocks.map writeBackRank else stocks

/-- Source lines 240-244: default ordering by price difference ascending
with the missing sentinel remapped to worst. -/
def finalSort (stocks : List StockData) : List StockData :=
  stableSortKey (fun s => finalKey s.priceDiff) stocks

/-- Model of calculateRanks (source lines 193-245): the six metric
rankings, the total, the general ranking, the conditional write-back,
and the final default sort, in source order. -/
def calculateRanks (stocks : List StockData) : List StockData :=
  finalSort (writeBackStage (stageGeneral (stageTotal
    (stageDebt (stageCAGR (stageMargin (stageDY (stageDeviation (stagePL stocks)))))))))

/-- The 33 standard-mode headers, from types.ts. -/
def STANDARD_HEADERS : List JStr :=
  [("Ranking Geral").data, ("Status").data, ("Ranking PL").data,
   ("Ranking Desvio PL").data, ("Ranking DY").data, ("Ranking Mg").data,
   ("Ranking CAGR").data, ("Ranking Divida").data, ("Ranking Total").data,
   ("Empresa").data, ("Código").data, ("Atuação").data,
   ("Quantidade total de ações").data, ("Valor de mercado").data,
   ("Lucro líquido estimado 2025").data, ("P/L projetado").data,
   ("P/L médio (últ. 10 anos)").data, ("Desvio do P/L da sua média").data,
   ("CAGR lucros (últ. 5 anos)").data, ("Dívida líquida/EBITDA").data,
   ("Lucro por ação estimado").data, ("Payout esperado").data,
   ("Dividendo por ação bruto projetado").data, ("Dividend Yield estimado").data,
   ("Cotação atual").data, ("Preço Teto").data, ("Margem de segurança").data,
   ("Preço de entrada").data, ("Dif. Preço Atual x Entrada").data,
   ("Frequência nos anúncios").data, ("Meses que costumam anunciar dividendos").data,
   ("Última atualização").data, ("Investidor10").data]

/-- The 21 fixed neto-mode headers, from types.ts. -/
def NETO_INVEST_HEADERS : List JStr :=
  [("Empresa").data, ("Código").data, ("Atuação").data,
   ("Quantidade total de ações").data, ("Valor de mercado").data,
   ("Lucro líquido estimado 2025").data, ("P/L projetado").data,
   ("P/L médio (últ. 10 anos)").data, ("Desvio do P/L da sua média").data,
   ("CAGR lucros (últ. 5 anos)").data, ("Dívida líquida/EBITDA").data,
   ("Lucro por ação estimado").data, ("Payout esperado").data,
   ("Dividendo por ação bruto projetado").data,
   ("Dividend Yield bruto estimado").data, ("Cotação atual").data,
   ("Preço Teto").data, ("Margem de segurança").data,
   ("Frequência nos anúncios").data,
   ("Meses que costumam anunciar dividendos").data,
   ("Última atualização").data]

/-- Right-padding of a cell row with empty strings up to a length
(source lines 47-48 and 149-150). -/
def padTo (n : ℕ) (row : List Cell) : List Cell :=
  row ++ List.replicate (n - row.length) (some [])

/-- JavaScript indexing into a cell row: out of range is undefined. -/
def cellGet (row : List Cell) (i : ℕ) : Cell := (row.get? i).getD none

/-- JavaScript indexing into a string row: out of range is undefined. -/
def rowGet (row : List JStr) (i : ℕ) : Cell := row.get? i

/-- JavaScript truthiness of a string value: undefined and the empty
string are falsy. -/
def truthy (c : Cell) : Bool :=
  match c with
  | none => false
  | some s => !s.isEmpty

/-- Record id: the ticker cell when truthy, else the random fallback
(source lines 51 and 155); the random draw is modelled by an oracle
indexed by the data-row position. -/
def mkId (c : Cell) (rng : ℕ → JStr) (i : ℕ) : JStr :=
  match c with
  | some t => if t.isEmpty then ("unknown-").data ++ rng i else t
  | none => ("unknown-").data ++ rng i

/-- Model of the neto-mode record constructor (source lines 45-71). -/
def mkNetoStock (rng : ℕ → JStr) (p : ℕ × List JStr) : StockData :=
  let safeRow := padTo NETO_INVEST_HEADERS.length (p.2.map some)
  { id := mkId (cellGet safeRow 1) rng p.1
    raw := safeRow
    ticker := cellGet safeRow 1
    company := cellGet safeRow 0
    sector := cellGet safeRow 2
    plProjected := parseBRNumber (cellGet safeRow 6)
    plDeviation := parseBRNumber (cellGet safeRow 8)
    dy := parseBRNumber (cellGet safeRow 14)
    marginSafety := parseBRNumber (cellGet safeRow 17)
    cagr := parseBRNumber (cellGet safeRow 9)
    debtEbitda := parseBRNumber (cellGet safeRow 10)
    currentPrice := parseBRNumber (cellGet safeRow 15)
    fairPrice := parseBRNumber (cellGet safeRow 16)
    priceDiff := JN.fin 0
    rankPL := 0, rankDeviation := 0, rankDY := 0, rankMargin := 0
    rankCAGR := 0, rankDebt := 0, rankTotal := 0, rankGeneral := 0 }

/-- Source lines 74-78: in neto mode the price difference is computed as
(current - fair) / fair * 100 when both prices compare greater than
zero, and left as initialised otherwise. -/
def netoPriceDiff (s : StockData) : StockData :=
  if jGtZero s.currentPrice && jGtZero s.fairPrice then
    { s with priceDiff := jMul100 (jDiv (jSub s.currentPrice s.fairPrice) s.fairPrice) }
  else s

/-- Model of the simplified-variant remap (source lines 108-145): build a
33-slot row prefilled with empty strings, copy the simplified columns to
their standard slots (an out-of-range source cell copies undefined),
synthesize the profile link when the ticker is truthy, and format the
price-difference column. -/
def remapRow (row : List JStr) : List Cell :=
  let n0 : List Cell := List.replicate STANDARD_HEADERS.length (some [])
  let n1 :=
    ((((((((((((((n0.set 9 (rowGet row 0)).set 10 (rowGet row 1)).set 11
      (rowGet row 2)).set 15 (rowGet row 6)).set 17 (rowGet row 8)).set 18
      (rowGet row 9)).set 19 (rowGet row 10)).set 23 (rowGet row 14)).set 24
      (rowGet row 15)).set 25 (rowGet row 16)).set 26 (rowGet row 17)).set 29
      (rowGet row 18)).set 30 (rowGet row 19)).set 31 (rowGet row 20))
  let n2 :=
    if truthy (rowGet row 1) then
      n1.set 32 (some (("https://investidor10.com.br/acoes/").data ++
        jsTrim ((rowGet row 1).getD [])))
    else n1
  let price := parseBRNumber (rowGet row 15)
  let fair := parseBRNumber (rowGet row 16)
  let diffCell : JStr :=
    if price ≠ JN.negInf ∧ fair ≠ JN.negInf ∧ fair ≠ JN.fin 0 then
      replaceFirst '.' ',' (jToFixed2 (jMul100 (jDiv (jSub price fair) fair))) ++ ['%']
    else ("0,00%").data
  n2.set 28 (some diffCell)

/-- Model of the standard-mode record constructor (source lines
148-173). -/
def mkStandardStock (rng : ℕ → JStr) (p : ℕ × List Cell) : StockData :=
  let safeRow := padTo STANDARD_HEADERS.length p.2
  { id := mkId (cellGet safeRow 10) rng p.1
    raw := safeRow
    ticker := cellGet safeRow 10
    company := cellGet safeRow 9
    sector := cellGet safeRow 11
    plProjected := parseBRNumber (cellGet safeRow 15)
    plDeviation := parseBRNumber (cellGet safeRow 17)
    dy := parseBRNumber (cellGet safeRow 23)
    marginSafety := parseBRNumber (cellGet safeRow 26)
    cagr := parseBRNumber (cellGet safeRow 18)
    debtEbitda := parseBRNumber (cellGet safeRow 19)
    currentPrice := parseBRNumber (cellGet safeRow 24)
    fairPrice := parseBRNumber (cellGet safeRow 25)
    priceDiff := parseBRNumber (cellGet safeRow 28)
    rankPL := 0, rankDeviation := 0, rankDY := 0, rankMargin := 0
    rankCAGR := 0, rankDebt := 0, rankTotal := 0, rankGeneral := 0 }

/-- Processing mode. -/
inductive Mode where
  | standard : Mode
  | neto : Mode
deriving DecidableEq

/-- Layout metadata, from types.ts. -/
structure TableLayoutConfig where
  stickyIndices : List ℕ
  tickerIndex : ℕ
  companyIndex : ℕ
  statusIndex : Option ℕ := none
  generalRankIndex : Option ℕ := none
deriving DecidableEq

/-- The result bundle of processStockData. -/
structure ProcessResult where
  processed : List StockData
  headers : List JStr
  initialHiddenColumns : List ℕ
  layoutConfig : TableLayoutConfig
deriving DecidableEq

/-- Source line 29: trim the pasted text, split on newlines, split each
line on tabs. -/
def splitRows (rawData : String) : List (List JStr) :=
  (splitOnChar '\n' (jsTrim rawData.data)).map (splitOnChar '\t')

/-- Source line 105: the simplified variant is detected when the first
header cell is truthy and its trimmed lower-case form is empresa. -/
def simplifiedHeader (inputHeaders : List JStr) : Bool :=
  match rowGet inputHeaders 0 with
  | some h => !h.isEmpty && decide (jsToLowerCase (jsTrim h) = ("empresa").data)
  | none => false

/-- Data rows of standard mode (source lines 98-146): the simplified
variant is remapped to the 33-column layout, otherwise the rows pass
through unchanged. -/
def standardDataRows (rows : List (List JStr)) : List (List Cell) :=
  if simplifiedHeader (rows.headD []) then (rows.drop 1).map remapRow
  else (rows.drop 1).map (fun r => r.map some)

/-- Neto-mode record list (source lines 45-78). -/
def netoStocks (rng : ℕ → JStr) (rows : List (List JStr)) : List StockData :=
  (((rows.drop 1).enum).map (mkNetoStock rng)).map netoPriceDiff

/-- Standard-mode record list (source lines 148-173). -/
def standardStocks (rng : ℕ → JStr) (rows : List (List JStr)) : List StockData :=
  ((standardDataRows rows).enum).map (mkStandardStock rng)

/-- Model of processStockData (source lines 28-190). -/
def processStockData (rawData : String) (mode : Mode) (rng : ℕ → JStr) :
    Except JStr ProcessResult :=
  if (splitRows rawData).length < 2 then Except.error ("Dados insuficientes.").data
  else
    match mode with
    | Mode.neto =>
      Except.ok
        { processed := calculateRanks (netoStocks rng (splitRows rawData))
          headers := NETO_INVEST_HEADERS
          initialHiddenColumns := []
          layoutConfig :=
            { stickyIndices := [0, 1], companyIndex := 0, tickerIndex := 1 } }
    | Mode.standard =>
      Except.ok
        { processed := calculateRanks (standardStocks rng (splitRows rawData))
          headers := STANDARD_HEADERS
          initialHiddenColumns :=
            if simplifiedHeader ((splitRows rawData).headD []) then [1, 27] else []
          layoutConfig :=
            { stickyIndices := [0, 9, 10], generalRankIndex := some 0,
              statusIndex := some 1, companyIndex := 9, tickerIndex := 10 } }

/-- Placeholder record used to express closed witness statements. -/
def dummyStock : StockData :=
  { id := [], raw := [], ticker := none, company := none, sector := none
    plProjected := JN.negInf, plDeviation := JN.negInf, dy := JN.negInf
    marginSafety := JN.negInf, cagr := JN.negInf, debtEbitda := JN.negInf
    currentPrice := JN.negInf, fairPrice := JN.negInf, priceDiff := JN.negInf
    rankPL := 0, rankDeviation := 0, rankDY := 0, rankMargin := 0
    rankCAGR := 0, rankDebt := 0, rankTotal := 0, rankGeneral := 0 }

/-- Placeholder result bundle used to express closed witness
statements. -/
def dummyRes : ProcessResult :=
  { processed := [], headers := [], initialHiddenColumns := []
    layoutConfig := { stickyIndices := [], tickerIndex := 0, companyIndex := 0 } }

/-- Trivial random oracle for witnesses. -/
def rng0 : ℕ → JStr := fun _ => []

/-- The record list a processing run ranks, by mode: the branch of
processStockData taken before calculateRanks. -/
def modeStocks (rawData : String) (mode : Mode) (rng : ℕ → JStr) : List StockData :=
  match mode with
  | Mode.neto => netoStocks rng (splitRows rawData)
  | Mode.standard => standardStocks rng (splitRows rawData)

/-- The cell rows a processing run builds records from, by mode. -/
def modeDataRows (rawData : String) (mode : Mode) : List (List Cell) :=
  match mode with
  | Mode.neto => (((splitRows rawData).drop 1)).map (fun r => r.map some)
  | Mode.standard => standardDataRows (splitRows rawData)

/-- Record with one finite projected P/L, for witnesses. -/
def stockFin (q : ℚ) : StockData := { dummyStock with plProjected := JN.fin q }

/-- Two-record list with distinct finite projected P/L, for witnesses. -/
def W2 : List StockData := [stockFin (mkRat 1 1), stockFin (mkRat 2 1)]

/-- Two-record list with one missing and one finite projected P/L, for
witnesses. -/
def W3 : List StockData := [dummyStock, stockFin (mkRat 1 1)]

/-- Small neto-mode input with two data rows, for witnesses. -/
def sampleNeto : String := "h\nA\tT1\tS\t\t\t\t2,0\nB\tT2\tS\t\t\t\t1,0"

/-- Neto input whose single data row has price zero and fair price ten
(cells 15 and 16). -/
def cexNetoZero : String := "h\nA\tT\tS\t\t\t\t\t\t\t\t\t\t\t\t\t0\t10"

/-- Neto input whose single data row has price twenty and fair price
ten (cells 15 and 16). -/
def netoPosInput : String := "h\nA\tT\tS\t\t\t\t\t\t\t\t\t\t\t\t\t20\t10"

/-- Neto input whose single data row carries 30 cells, the first one X,
so that the padded display row is long enough for the rank
write-back. -/
def cexNeto30 : String := "h\nX\tT\t\t\t\t\t\t\t\t\t\t\t\t\t\t\t\t\t\t\t\t\t\t\t\t\t\t\t\tz"

/-- Record with a 30-cell display row and general rank seven, for
witnesses. -/
def stock30 : StockData :=
  { dummyStock with raw := List.replicate 30 (some []), rankGeneral := 7 }

/-- The fixed header list of each mode. -/
def modeHeaders (mode : Mode) : List JStr :=
  match mode with
  | Mode.neto => NETO_INVEST_HEADERS
  | Mode.standard => STANDARD_HEADERS

/-- Simplified standard-mode input whose single data row has one cell,
so that remapped slots read beyond the row. -/
def cexSimplified : String := "Empresa\nAcme"

/-! Bridging lemmas: the evaluation-friendly rational helpers agree with
the field operations of the rationals. -/

theorem qnat_eq (n : ℕ) : qnat n = (n : ℚ) := by
  rw [qnat, Rat.mkRat_eq_div]
  norm_num

theorem qadd_eq (a b : ℚ) : qadd a b = a + b := by
  have ha : (a.den : ℚ) ≠ 0 := by exact_mod_cast a.den_nz
  have hb : (b.den : ℚ) ≠ 0 := by exact_mod_cast b.den_nz
  rw [qadd, Rat.mkRat_eq_div]
  conv_rhs => rw [← Rat.num_div_den a, ← Rat.num_div_den b, div_add_div _ _ ha hb]
  push_cast
  ring_nf

theorem qsub_eq (a b : ℚ) : qsub a b = a - b := by
  have ha : (a.den : ℚ) ≠ 0 := by exact_mod_cast a.den_nz
  have hb : (b.den : ℚ) ≠ 0 := by exact_mod_cast b.den_nz
  rw [qsub, Rat.mkRat_eq_div]
  conv_rhs => rw [← Rat.num_div_den a, ← Rat.num_div_den b, div_sub_div _ _ ha hb]
  push_cast
  ring_nf

theorem qmul_eq (a b : ℚ) : qmul a b = a * b := by
  rw [qmul, Rat.mkRat_eq_div]
  conv_rhs => rw [← Rat.num_div_den a, ← Rat.num_div_den b, div_mul_div_comm]
  push_cast
  ring_nf

theorem qneg_eq (a : ℚ) : qneg a = -a := by
  rw [qneg, Rat.mkRat_eq_div]
  conv_rhs => rw [← Rat.num_div_den a]
  push_cast
  ring_nf

theorem qdiv_eq (a b : ℚ) : qdiv a b = a / b := by
  rcases eq_or_ne b 0 with rfl | hb0
  · simp [qdiv, Rat.mkRat_eq_div]
  · have hbn : b.num ≠ 0 := Rat.num_ne_zero.mpr hb0
    have hbnQ : ((b.num : ℤ) : ℚ) ≠ 0 := by exact_mod_cast hbn
    have hadQ : ((a.den : ℕ) : ℚ) ≠ 0 := by exact_mod_cast a.den_nz
    have hbdQ : ((b.den : ℕ) : ℚ) ≠ 0 := by exact_mod_cast b.den_nz
    have hkey : a / b = ((a.num : ℚ) * (b.den : ℚ)) / ((a.den : ℚ) * (b.num : ℚ)) := by
      conv_lhs => rw [← Rat.num_div_den a, ← Rat.num_div_den b]
      rw [div_eq_div_iff (div_ne_zero hbnQ hbdQ) (mul_ne_zero hadQ hbnQ)]
      field_simp
      ring
    rcases lt_or_gt_of_ne hbn with hneg | hpos
    · rw [qdiv, if_pos hneg, Rat.mkRat_eq_div, hkey]
      have habs : ((b.num.natAbs : ℕ) : ℚ) = -((b.num : ℤ) : ℚ) := by
        rw [Int.cast_natAbs, abs_of_neg hneg]
        push_cast
        ring
      push_cast
      rw [habs]
      rw [div_eq_div_iff (mul_ne_zero hadQ (neg_ne_zero.mpr hbnQ)) (mul_ne_zero hadQ hbnQ)]
      ring
    · rw [qdiv, if_neg (by omega), Rat.mkRat_eq_div, hkey]
      have habs : ((b.num.natAbs : ℕ) : ℚ) = ((b.num : ℤ) : ℚ) := by
        rw [Int.cast_natAbs, abs_of_pos hpos]
      push_cast
      rw [habs]

/-! Sort infrastructure: the stable sort by key is a permutation, is
sorted by key, and breaks key ties by the original position. -/

theorem stableSortEnum_perm (k : StockData → WithTop ℚ) (l : List StockData) :
    (stableSortEnum k l).Perm l.enum :=
  List.perm_insertionSort _ _

theorem stableSortEnum_sorted (k : StockData → WithTop ℚ) (l : List StockData) :
    (stableSortEnum k l).Pairwise (lexLe k) :=
  List.sorted_insertionSort (lexLe k) l.enum

theorem stableSortKey_perm (k : StockData → WithTop ℚ) (l : List StockData) :
    (stableSortKey k l).Perm l := by
  have h := (stableSortEnum_perm k l).map Prod.snd
  rwa [List.enum_map_snd] at h

theorem stableSortKey_length (k : StockData → WithTop ℚ) (l : List StockData) :
    (stableSortKey k l).length = l.length :=
  (stableSortKey_perm k l).length_eq

theorem stableSortKey_pairwise (k : StockData → WithTop ℚ) (l : List StockData) :
    (stableSortKey k l).Pairwise (fun a b => k a ≤ k b) := by
  refine List.Pairwise.map Prod.snd ?_ (stableSortEnum_sorted k l)
  intro a b hab
  rcases hab with h | ⟨h, _⟩
  · exact le_of_lt h
  · exact le_of_eq h

theorem stableSortEnum_stable (k : StockData → WithTop ℚ) (l : List StockData) :
    (stableSortEnum k l).Pairwise (fun x y => k x.2 = k y.2 → x.1 < y.1) := by
  have hs := stableSortEnum_sorted k l
  have hnd : ((stableSortEnum k l).map Prod.fst).Nodup := by
    have hp : ((stableSortEnum k l).map Prod.fst).Perm (l.enum.map Prod.fst) :=
      (stableSortEnum_perm k l).map Prod.fst
    rw [List.enum_map_fst] at hp
    exact hp.symm.nodup (List.nodup_range l.length)
  have hne : (stableSortEnum k l).Pairwise (fun x y => x.1 ≠ y.1) :=
    List.pairwise_map.mp hnd
  refine (hs.and hne).imp ?_
  intro x y hxy hk
  rcases hxy.1 with h | ⟨_, hi⟩
  · exact absurd hk (ne_of_lt h)
  · exact lt_of_le_of_ne hi hxy.2

/-! Generic facts about applyRank: length preservation, the assigned
ranks read off as 1..N in output order, monotonicity of ranks in the
remapped key, and transport of record projections. -/

theorem applyRank_length (get : StockData → JN) (set : StockData → ℕ → StockData)
    (ord : SortOrder) (l : List StockData) :
    (applyRank get set ord l).length = l.length := by
  unfold applyRank
  rw [List.length_map, List.enum_length, stableSortKey_length]

theorem applyRank_map_rank (get : StockData → JN) (set : StockData → ℕ → StockData)
    (ord : SortOrder) (l : List StockData) (rget : StockData → ℕ)
    (hr : ∀ s r, rget (set s r) = r) :
    (applyRank get set ord l).map rget = List.range' 1 l.length := by
  unfold applyRank
  rw [List.map_map]
  have h1 : (rget ∘ fun p : ℕ × StockData => set p.2 (p.1 + 1)) =
      ((fun n => n + 1) ∘ Prod.fst) :=
    funext fun p => hr p.2 (p.1 + 1)
  rw [h1, ← List.map_map, List.enum_map_fst, stableSortKey_length,
    List.range'_eq_map_range]
  exact List.map_congr_left fun a _ => Nat.add_comm a 1

theorem applyRank_rank_mono (get : StockData → JN) (set : StockData → ℕ → StockData)
    (ord : SortOrder) (l : List StockData) (rget : StockData → ℕ)
    (hg : ∀ s r, get (set s r) = get s) (hr : ∀ s r, rget (set s r) = r) :
    ∀ a ∈ applyRank get set ord l, ∀ b ∈ applyRank get set ord l,
      rankKey ord (get a) < rankKey ord (get b) → rget a < rget b := by
  intro a ha b hb
  rw [List.mem_iff_getElem] at ha hb
  obtain ⟨i, hi, rfl⟩ := ha
  obtain ⟨j, hj, rfl⟩ := hb
  intro hk
  have hilen := hi
  have hjlen := hj
  rw [applyRank_length] at hilen hjlen
  simp only [applyRank, List.getElem_map, List.getElem_enum] at hk ⊢
  rw [hg, hg] at hk
  rw [hr, hr]
  have hσlen : (stableSortKey (fun s => rankKey ord (get s)) l).length = l.length :=
    stableSortKey_length _ l
  have hsorted := stableSortKey_pairwise (fun s => rankKey ord (get s)) l
  rw [List.pairwise_iff_getElem] at hsorted
  by_contra hij
  push_neg at hij
  have hji : j ≤ i := by omega
  rcases eq_or_lt_of_le hji with he | hlt
  · subst he
    exact absurd hk (lt_irrefl _)
  · have hle := hsorted j i (by omega) (by omega) hlt
    exact absurd hk (not_lt.mpr hle)

theorem projPerm_applyRank {γ : Type*} (π : StockData → γ) (get : StockData → JN)
    (set : StockData → ℕ → StockData) (ord : SortOrder) (l : List StockData)
    (hπ : ∀ s r, π (set s r) = π s) :
    ((applyRank get set ord l).map π).Perm (l.map π) := by
  unfold applyRank
  rw [List.map_map]
  have h1 : (π ∘ fun p : ℕ × StockData => set p.2 (p.1 + 1)) = (π ∘ Prod.snd) :=
    funext fun p => hπ p.2 (p.1 + 1)
  rw [h1, ← List.map_map, List.enum_map_snd]
  exact (stableSortKey_perm _ l).map π

theorem projOrig_of_projPerm {γ : Type*} {π : StockData → γ} {l l' : List StockData}
    (h : (l'.map π).Perm (l.map π)) : ∀ x ∈ l', ∃ y ∈ l, π x = π y := by
  intro x hx
  have h2 : π x ∈ l.map π := h.mem_iff.mp (List.mem_map_of_mem π hx)
  obtain ⟨y, hy, he⟩ := List.mem_map.mp h2
  exact ⟨y, hy, he.symm⟩

theorem pairProp_transport {γ : Type*} (π : StockData → γ) (Φ : γ → γ → Prop)
    {l l' : List StockData} (h : ∀ x ∈ l', ∃ y ∈ l, π x = π y)
    (hl : ∀ a ∈ l, ∀ b ∈ l, Φ (π a) (π b)) :
    ∀ a ∈ l', ∀ b ∈ l', Φ (π a) (π b) := by
  intro a ha b hb
  obtain ⟨a0, ha0, hea⟩ := h a ha
  obtain ⟨b0, hb0, heb⟩ := h b hb
  rw [hea, heb]
  exact hl a0 ha0 b0 hb0

/-! Projection transport through each pipeline stage. -/

theorem projPerm_stageTotal {γ : Type*} (π : StockData → γ)
    (hπ : ∀ s, π (setTotal s) = π s) (l : List StockData) :
    (stageTotal l).map π = l.map π := by
  rw [stageTotal, List.map_map]
  exact List.map_congr_left fun s _ => hπ s

theorem projPerm_writeBackStage {γ : Type*} (π : StockData → γ)
    (hπ : ∀ s, π (writeBackRank s) = π s) (l : List StockData) :
    (writeBackStage l).map π = l.map π := by
  cases l with
  | nil => rfl
  | cons s0 t =>
    show List.map π (if 9 ≤ s0.raw.length then (s0 :: t).map writeBackRank else s0 :: t) = _
    split
    · rw [List.map_map]
      exact List.map_congr_left fun s _ => hπ s
    · rfl

theorem projPerm_finalSort {γ : Type*} (π : StockData → γ) (l : List StockData) :
    ((finalSort l).map π).Perm (l.map π) :=
  (stableSortKey_perm _ l).map π

/-! Forward preservation of a record property through the pipeline. -/

theorem allProp_applyRank (P : StockData → Prop) (get : StockData → JN)
    (set : StockData → ℕ → StockData) (ord : SortOrder) (l : List StockData)
    (hset : ∀ s r, P s → P (set s r)) (h : ∀ y ∈ l, P y) :
    ∀ x ∈ applyRank get set ord l, P x := by
  intro x hx
  unfold applyRank at hx
  obtain ⟨p, hp, rfl⟩ := List.mem_map.mp hx
  have hp2 : p.2 ∈ stableSortKey (fun s => rankKey ord (get s)) l := by
    have h1 := List.mem_map_of_mem Prod.snd hp
    rwa [List.enum_map_snd] at h1
  exact hset _ _ (h _ ((stableSortKey_perm _ l).mem_iff.mp hp2))

theorem allProp_stageTotal (P : StockData → Prop) (l : List StockData)
    (hset : ∀ s, P s → P (setTotal s)) (h : ∀ y ∈ l, P y) :
    ∀ x ∈ stageTotal l, P x := by
  intro x hx
  obtain ⟨s, hs, rfl⟩ := List.mem_map.mp hx
  exact hset s (h s hs)

theorem allProp_writeBackStage (P : StockData → Prop) (l : List StockData)
    (hset : ∀ s, P s → P (writeBackRank s)) (h : ∀ y ∈ l, P y) :
    ∀ x ∈ writeBackStage l, P x := by
  cases l with
  | nil => intro x hx; exact absurd hx (List.not_mem_nil x)
  | cons s0 t =>
    intro x hx
    have hx1 : x ∈ (if 9 ≤ s0.raw.length then (s0 :: t).map writeBackRank else s0 :: t) := hx
    split at hx1
    · obtain ⟨s, hs, rfl⟩ := List.mem_map.mp hx1
      exact hset s (h s hs)
    · exact h x hx1

theorem allProp_finalSort (P : StockData → Prop) (l : List StockData)
    (h : ∀ y ∈ l, P y) : ∀ x ∈ finalSort l, P x :=
  fun x hx => h x ((stableSortKey_perm _ l).mem_iff.mp hx)

theorem writeBackStage_length (l : List StockData) :
    (writeBackStage l).length = l.length := by
  cases l with
  | nil => rfl
  | cons s0 t =>
    show (if 9 ≤ s0.raw.length then (s0 :: t).map writeBackRank else s0 :: t).length = _
    split
    · rw [List.length_map]
    · rfl

theorem stages7_length (l : List StockData) :
    (stageTotal (stageDebt (stageCAGR (stageMargin
      (stageDY (stageDeviation (stagePL l))))))).length = l.length := by
  unfold stagePL stageDeviation stageDY stageMargin stageCAGR stageDebt stageTotal
  rw [List.length_map, applyRank_length, applyRank_length, applyRank_length,
    applyRank_length, applyRank_length, applyRank_length]

theorem calculateRanks_length (l : List StockData) :
    (calculateRanks l).length = l.length := by
  unfold calculateRanks finalSort stageGeneral
  rw [stableSortKey_length, writeBackStage_length, applyRank_length, stages7_length]

/-! Cumulative projection transport through pipeline suffixes. -/

theorem projPerm_tailG {γ : Type*} (π : StockData → γ)
    (h9 : ∀ s, π (writeBackRank s) = π s) (m : List StockData) :
    ((finalSort (writeBackStage m)).map π).Perm (m.map π) := by
  have hf := projPerm_finalSort π (writeBackStage m)
  rwa [projPerm_writeBackStage π h9] at hf

theorem projPerm_tail8 {γ : Type*} (π : StockData → γ)
    (h8 : ∀ s r, π { s with rankGeneral := r } = π s)
    (h9 : ∀ s, π (writeBackRank s) = π s) (m : List StockData) :
    ((finalSort (writeBackStage (stageGeneral m))).map π).Perm (m.map π) := by
  refine (projPerm_tailG π h9 _).trans ?_
  unfold stageGeneral
  exact projPerm_applyRank π _ _ _ m h8

theorem projPerm_tail7 {γ : Type*} (π : StockData → γ)
    (h7 : ∀ s, π (setTotal s) = π s)
    (h8 : ∀ s r, π { s with rankGeneral := r } = π s)
    (h9 : ∀ s, π (writeBackRank s) = π s) (m : List StockData) :
    ((finalSort (writeBackStage (stageGeneral (stageTotal m)))).map π).Perm (m.map π) := by
  have h := projPerm_tail8 π h8 h9 (stageTotal m)
  rwa [projPerm_stageTotal π h7] at h

theorem projPerm_tail6 {γ : Type*} (π : StockData → γ)
    (h6 : ∀ s r, π { s with rankDebt := r } = π s)
    (h7 : ∀ s, π (setTotal s) = π s)
    (h8 : ∀ s r, π { s with rankGeneral := r } = π s)
    (h9 : ∀ s, π (writeBackRank s) = π s) (m : List StockData) :
    ((finalSort (writeBackStage (stageGeneral (stageTotal
      (stageDebt m))))).map π).Perm (m.map π) := by
  refine (projPerm_tail7 π h7 h8 h9 _).trans ?_
  unfold stageDebt
  exact projPerm_applyRank π _ _ _ m h6

theorem projPerm_tail5 {γ : Type*} (π : StockData → γ)
    (h5 : ∀ s r, π { s with rankCAGR := r } = π s)
    (h6 : ∀ s r, π { s with rankDebt := r } = π s)
    (h7 : ∀ s, π (setTotal s) = π s)
    (h8 : ∀ s r, π { s with rankGeneral := r } = π s)
    (h9 : ∀ s, π (writeBackRank s) = π s) (m : List StockData) :
    ((finalSort (writeBackStage (stageGeneral (stageTotal
      (stageDebt (stageCAGR m)))))).map π).Perm (m.map π) := by
  refine (projPerm_tail6 π h6 h7 h8 h9 _).trans ?_
  unfold stageCAGR
  exact projPerm_applyRank π _ _ _ m h5

theorem projPerm_tail4 {γ : Type*} (π : StockData → γ)
    (h4 : ∀ s r, π { s with rankMargin := r } = π s)
    (h5 : ∀ s r, π { s with rankCAGR := r } = π s)
    (h6 : ∀ s r, π { s with rankDebt := r } = π s)
    (h7 : ∀ s, π (setTotal s) = π s)
    (h8 : ∀ s r, π { s with rankGeneral := r } = π s)
    (h9 : ∀ s, π (writeBackRank s) = π s) (m : List StockData) :
    ((finalSort (writeBackStage (stageGeneral (stageTotal
      (stageDebt (stageCAGR (stageMargin m))))))).map π).Perm (m.map π) := by
  refine (projPerm_tail5 π h5 h6 h7 h8 h9 _).trans ?_
  unfold stageMargin
  exact projPerm_applyRank π _ _ _ m h4

theorem projPerm_tail3 {γ : Type*} (π : StockData → γ)
    (h3 : ∀ s r, π { s with rankDY := r } = π s)
    (h4 : ∀ s r, π { s with rankMargin := r } = π s)
    (h5 : ∀ s r, π { s with rankCAGR := r } = π s)
    (h6 : ∀ s r, π { s with rankDebt := r } = π s)
    (h7 : ∀ s, π (setTotal s) = π s)
    (h8 : ∀ s r, π { s with rankGeneral := r } = π s)
    (h9 : ∀ s, π (writeBackRank s) = π s) (m : List StockData) :
    ((finalSort (writeBackStage (stageGeneral (stageTotal
      (stageDebt (stageCAGR (stageMargin (stageDY m)))))))).map π).Perm (m.map π) := by
  refine (projPerm_tail4 π h4 h5 h6 h7 h8 h9 _).trans ?_
  unfold stageDY
  exact projPerm_applyRank π _ _ _ m h3

theorem projPerm_tail2 {γ : Type*} (π : StockData → γ)
    (h2 : ∀ s r, π { s with rankDeviation := r } = π s)
    (h3 : ∀ s r, π { s with rankDY := r } = π s)
    (h4 : ∀ s r, π { s with rankMargin := r } = π s)
    (h5 : ∀ s r, π { s with rankCAGR := r } = π s)
    (h6 : ∀ s r, π { s with rankDebt := r } = π s)
    (h7 : ∀ s, π (setTotal s) = π s)
    (h8 : ∀ s r, π { s with rankGeneral := r } = π s)
    (h9 : ∀ s, π (writeBackRank s) = π s) (m : List StockData) :
    ((finalSort (writeBackStage (stageGeneral (stageTotal (stageDebt (stageCAGR
      (stageMargin (stageDY (stageDeviation m))))))))).map π).Perm (m.map π) := by
  refine (projPerm_tail3 π h3 h4 h5 h6 h7 h8 h9 _).trans ?_
  unfold stageDeviation
  exact projPerm_applyRank π _ _ _ m h2

theorem projPerm_calculateRanks {γ : Type*} (π : StockData → γ)
    (h1 : ∀ s r, π { s with rankPL := r } = π s)
    (h2 : ∀ s r, π { s with rankDeviation := r } = π s)
    (h3 : ∀ s r, π { s with rankDY := r } = π s)
    (h4 : ∀ s r, π { s with rankMargin := r } = π s)
    (h5 : ∀ s r, π { s with rankCAGR := r } = π s)
    (h6 : ∀ s r, π { s with rankDebt := r } = π s)
    (h7 : ∀ s, π (setTotal s) = π s)
    (h8 : ∀ s r, π { s with rankGeneral := r } = π s)
    (h9 : ∀ s, π (writeBackRank s) = π s) (l : List StockData) :
    ((calculateRanks l).map π).Perm (l.map π) := by
  refine (projPerm_tail2 π h2 h3 h4 h5 h6 h7 h8 h9 (stagePL l)).trans ?_
  unfold stagePL
  exact projPerm_applyRank π _ _ _ l h1

theorem allProp_calculateRanks (P : StockData → Prop)
    (h1 : ∀ s r, P s → P { s with rankPL := r })
    (h2 : ∀ s r, P s → P { s with rankDeviation := r })
    (h3 : ∀ s r, P s → P { s with rankDY := r })
    (h4 : ∀ s r, P s → P { s with rankMargin := r })
    (h5 : ∀ s r, P s → P { s with rankCAGR := r })
    (h6 : ∀ s r, P s → P { s with rankDebt := r })
    (h7 : ∀ s, P s → P (setTotal s))
    (h8 : ∀ s r, P s → P { s with rankGeneral := r })
    (h9 : ∀ s, P s → P (writeBackRank s))
    (l : List StockData) (hl : ∀ y ∈ l, P y) :
    ∀ x ∈ calculateRanks l, P x := by
  unfold calculateRanks stagePL stageDeviation stageDY stageMargin stageCAGR stageDebt
    stageGeneral
  exact allProp_finalSort P _ (allProp_writeBackStage P _ h9
    (allProp_applyRank P _ _ _ _ h8 (allProp_stageTotal P _ h7
      (allProp_applyRank P _ _ _ _ h6 (allProp_applyRank P _ _ _ _ h5
        (allProp_applyRank P _ _ _ _ h4 (allProp_applyRank P _ _ _ _ h3
          (allProp_applyRank P _ _ _ _ h2 (allProp_applyRank P _ _ _ _ h1 hl)))))))))

theorem writeBackRank_proj {γ : Type*} (π : StockData → γ)
    (hπ : ∀ s r, π { s with raw := r } = π s) (s : StockData) :
    π (writeBackRank s) = π s := by
  unfold writeBackRank
  split
  · exact hπ s _
  · rfl

/-! Rank columns of the final record list, one lemma per ranked metric:
the multiset of assigned ranks is exactly 1..N. -/

theorem calc_map_rankPL (l : List StockData) :
    ((calculateRanks l).map (fun s => s.rankPL)).Perm (List.range' 1 l.length) := by
  have h0 : (stagePL l).map (fun s => s.rankPL) = List.range' 1 l.length := by
    unfold stagePL
    exact applyRank_map_rank _ _ _ l _ (fun _ _ => rfl)
  have hchain := projPerm_tail2 (fun s => s.rankPL) (fun _ _ => rfl) (fun _ _ => rfl)
    (fun _ _ => rfl) (fun _ _ => rfl) (fun _ _ => rfl) (fun _ => rfl) (fun _ _ => rfl)
    (writeBackRank_proj (fun s => s.rankPL) (fun _ _ => rfl)) (stagePL l)
  unfold calculateRanks
  rw [← h0]
  exact hchain

theorem calc_map_rankDeviation (l : List StockData) :
    ((calculateRanks l).map (fun s => s.rankDeviation)).Perm (List.range' 1 l.length) := by
  have h0 : (stageDeviation (stagePL l)).map (fun s => s.rankDeviation) =
      List.range' 1 l.length := by
    unfold stageDeviation
    rw [applyRank_map_rank _ _ _ _ _ (fun _ _ => rfl)]
    unfold stagePL
    rw [applyRank_length]
  have hchain := projPerm_tail3 (fun s => s.rankDeviation) (fun _ _ => rfl)
    (fun _ _ => rfl) (fun _ _ => rfl) (fun _ _ => rfl) (fun _ => rfl) (fun _ _ => rfl)
    (writeBackRank_proj (fun s => s.rankDeviation) (fun _ _ => rfl)) (stageDeviation (stagePL l))
  unfold calculateRanks
  rw [← h0]
  exact hchain

theorem calc_map_rankDY (l : List StockData) :
    ((calculateRanks l).map (fun s => s.rankDY)).Perm (List.range' 1 l.length) := by
  have h0 : (stageDY (stageDeviation (stagePL l))).map (fun s => s.rankDY) =
      List.range' 1 l.length := by
    unfold stageDY
    rw [applyRank_map_rank _ _ _ _ _ (fun _ _ => rfl)]
    unfold stageDeviation stagePL
    rw [applyRank_length, applyRank_length]
  have hchain := projPerm_tail4 (fun s => s.rankDY) (fun _ _ => rfl)
    (fun _ _ => rfl) (fun _ _ => rfl) (fun _ => rfl) (fun _ _ => rfl)
    (writeBackRank_proj (fun s => s.rankDY) (fun _ _ => rfl)) (stageDY (stageDeviation (stagePL l)))
  unfold calculateRanks
  rw [← h0]
  exact hchain

theorem calc_map_rankMargin (l : List StockData) :
    ((calculateRanks l).map (fun s => s.rankMargin)).Perm (List.range' 1 l.length) := by
  have h0 : (stageMargin (stageDY (stageDeviation (stagePL l)))).map
      (fun s => s.rankMargin) = List.range' 1 l.length := by
    unfold stageMargin
    rw [applyRank_map_rank _ _ _ _ _ (fun _ _ => rfl)]
    unfold stageDY stageDeviation stagePL
    rw [applyRank_length, applyRank_length, applyRank_length]
  have hchain := projPerm_tail5 (fun s => s.rankMargin) (fun _ _ => rfl)
    (fun _ _ => rfl) (fun _ => rfl) (fun _ _ => rfl)
    (writeBackRank_proj (fun s => s.rankMargin) (fun _ _ => rfl)) (stageMargin (stageDY (stageDeviation (stagePL l))))
  unfold calculateRanks
  rw [← h0]
  exact hchain

theorem calc_map_rankCAGR (l : List StockData) :
    ((calculateRanks l).map (fun s => s.rankCAGR)).Perm (List.range' 1 l.length) := by
  have h0 : (stageCAGR (stageMargin (stageDY (stageDeviation (stagePL l))))).map
      (fun s => s.rankCAGR) = List.range' 1 l.length := by
    unfold stageCAGR
    rw [applyRank_map_rank _ _ _ _ _ (fun _ _ => rfl)]
    unfold stageMargin stageDY stageDeviation stagePL
    rw [applyRank_length, applyRank_length, applyRank_length, applyRank_length]
  have hchain := projPerm_tail6 (fun s => s.rankCAGR) (fun _ _ => rfl)
    (fun _ => rfl) (fun _ _ => rfl) (writeBackRank_proj (fun s => s.rankCAGR) (fun _ _ => rfl))
    (stageCAGR (stageMargin (stageDY (stageDeviation (stagePL l)))))
  unfold calculateRanks
  rw [← h0]
  exact hchain

theorem calc_map_rankDebt (l : List StockData) :
    ((calculateRanks l).map (fun s => s.rankDebt)).Perm (List.range' 1 l.length) := by
  have h0 : (stageDebt (stageCAGR (stageMargin (stageDY (stageDeviation
      (stagePL l)))))).map (fun s => s.rankDebt) = List.range' 1 l.length := by
    unfold stageDebt
    rw [applyRank_map_rank _ _ _ _ _ (fun _ _ => rfl)]
    unfold stageCAGR stageMargin stageDY stageDeviation stagePL
    rw [applyRank_length, applyRank_length, applyRank_length, applyRank_length,
      applyRank_length]
  have hchain := projPerm_tail7 (fun s => s.rankDebt) (fun _ => rfl) (fun _ _ => rfl)
    (writeBackRank_proj (fun s => s.rankDebt) (fun _ _ => rfl))
    (stageDebt (stageCAGR (stageMargin (stageDY (stageDeviation (stagePL l))))))
  unfold calculateRanks
  rw [← h0]
  exact hchain

theorem calc_map_rankGeneral (l : List StockData) :
    ((calculateRanks l).map (fun s => s.rankGeneral)).Perm (List.range' 1 l.length) := by
  have h0 : (stageGeneral (stageTotal (stageDebt (stageCAGR (stageMargin (stageDY
      (stageDeviation (stagePL l)))))))).map (fun s => s.rankGeneral) =
      List.range' 1 l.length := by
    unfold stageGeneral
    rw [applyRank_map_rank _ _ _ _ _ (fun _ _ => rfl), stages7_length]
  have hchain := projPerm_tailG (fun s => s.rankGeneral)
    (writeBackRank_proj (fun s => s.rankGeneral) (fun _ _ => rfl))
    (stageGeneral (stageTotal (stageDebt (stageCAGR (stageMargin (stageDY
      (stageDeviation (stagePL l))))))))
  unfold calculateRanks
  rw [← h0]
  exact hchain

/-! Rank monotonicity in the remapped key of each metric, transported to
the final record list. -/

theorem calc_mono_PL (l : List StockData) :
    ∀ a ∈ calculateRanks l, ∀ b ∈ calculateRanks l,
      rankKey SortOrder.ASC a.plProjected < rankKey SortOrder.ASC b.plProjected →
        a.rankPL < b.rankPL := by
  have hbase : ∀ a ∈ stagePL l, ∀ b ∈ stagePL l,
      rankKey SortOrder.ASC a.plProjected < rankKey SortOrder.ASC b.plProjected →
        a.rankPL < b.rankPL := by
    unfold stagePL
    exact applyRank_rank_mono _ _ _ l _ (fun _ _ => rfl) (fun _ _ => rfl)
  have hperm := projPerm_tail2 (fun s => (s.plProjected, s.rankPL)) (fun _ _ => rfl)
    (fun _ _ => rfl) (fun _ _ => rfl) (fun _ _ => rfl) (fun _ _ => rfl) (fun _ => rfl)
    (fun _ _ => rfl) (writeBackRank_proj (fun s => (s.plProjected, s.rankPL)) (fun _ _ => rfl)) (stagePL l)
  have horig : ∀ x ∈ calculateRanks l, ∃ y ∈ stagePL l,
      (x.plProjected, x.rankPL) = (y.plProjected, y.rankPL) := by
    unfold calculateRanks
    exact projOrig_of_projPerm hperm
  exact pairProp_transport (fun s => (s.plProjected, s.rankPL))
    (fun p q => rankKey SortOrder.ASC p.1 < rankKey SortOrder.ASC q.1 → p.2 < q.2)
    horig hbase

theorem calc_mono_Deviation (l : List StockData) :
    ∀ a ∈ calculateRanks l, ∀ b ∈ calculateRanks l,
      rankKey SortOrder.ASC a.plDeviation < rankKey SortOrder.ASC b.plDeviation →
        a.rankDeviation < b.rankDeviation := by
  have hbase : ∀ a ∈ stageDeviation (stagePL l), ∀ b ∈ stageDeviation (stagePL l),
      rankKey SortOrder.ASC a.plDeviation < rankKey SortOrder.ASC b.plDeviation →
        a.rankDeviation < b.rankDeviation := by
    unfold stageDeviation
    exact applyRank_rank_mono _ _ _ _ _ (fun _ _ => rfl) (fun _ _ => rfl)
  have hperm := projPerm_tail3 (fun s => (s.plDeviation, s.rankDeviation)) (fun _ _ => rfl)
    (fun _ _ => rfl) (fun _ _ => rfl) (fun _ _ => rfl) (fun _ => rfl)
    (fun _ _ => rfl) (writeBackRank_proj (fun s => (s.plDeviation, s.rankDeviation)) (fun _ _ => rfl)) (stageDeviation (stagePL l))
  have horig : ∀ x ∈ calculateRanks l, ∃ y ∈ stageDeviation (stagePL l),
      (x.plDeviation, x.rankDeviation) = (y.plDeviation, y.rankDeviation) := by
    unfold calculateRanks
    exact projOrig_of_projPerm hperm
  exact pairProp_transport (fun s => (s.plDeviation, s.rankDeviation))
    (fun p q => rankKey SortOrder.ASC p.1 < rankKey SortOrder.ASC q.1 → p.2 < q.2)
    horig hbase

theorem calc_mono_DY (l : List StockData) :
    ∀ a ∈ calculateRanks l, ∀ b ∈ calculateRanks l,
      rankKey SortOrder.DESC a.dy < rankKey SortOrder.DESC b.dy →
        a.rankDY < b.rankDY := by
  have hbase : ∀ a ∈ stageDY (stageDeviation (stagePL l)),
      ∀ b ∈ stageDY (stageDeviation (stagePL l)),
      rankKey SortOrder.DESC a.dy < rankKey SortOrder.DESC b.dy →
        a.rankDY < b.rankDY := by
    unfold stageDY
    exact applyRank_rank_mono _ _ _ _ _ (fun _ _ => rfl) (fun _ _ => rfl)
  have hperm := projPerm_tail4 (fun s => (s.dy, s.rankDY)) (fun _ _ => rfl)
    (fun _ _ => rfl) (fun _ _ => rfl) (fun _ => rfl) (fun _ _ => rfl)
    (writeBackRank_proj (fun s => (s.dy, s.rankDY)) (fun _ _ => rfl)) (stageDY (stageDeviation (stagePL l)))
  have horig : ∀ x ∈ calculateRanks l, ∃ y ∈ stageDY (stageDeviation (stagePL l)),
      (x.dy, x.rankDY) = (y.dy, y.rankDY) := by
    unfold calculateRanks
    exact projOrig_of_projPerm hperm
  exact pairProp_transport (fun s => (s.dy, s.rankDY))
    (fun p q => rankKey SortOrder.DESC p.1 < rankKey SortOrder.DESC q.1 → p.2 < q.2)
    horig hbase

theorem calc_mono_Margin (l : List StockData) :
    ∀ a ∈ calculateRanks l, ∀ b ∈ calculateRanks l,
      rankKey SortOrder.DESC a.marginSafety < rankKey SortOrder.DESC b.marginSafety →
        a.rankMargin < b.rankMargin := by
  have hbase : ∀ a ∈ stageMargin (stageDY (stageDeviation (stagePL l))),
      ∀ b ∈ stageMargin (stageDY (stageDeviation (stagePL l))),
      rankKey SortOrder.DESC a.marginSafety < rankKey SortOrder.DESC b.marginSafety →
        a.rankMargin < b.rankMargin := by
    unfold stageMargin
    exact applyRank_rank_mono _ _ _ _ _ (fun _ _ => rfl) (fun _ _ => rfl)
  have hperm := projPerm_tail5 (fun s => (s.marginSafety, s.rankMargin)) (fun _ _ => rfl)
    (fun _ _ => rfl) (fun _ => rfl) (fun _ _ => rfl)
    (writeBackRank_proj (fun s => (s.marginSafety, s.rankMargin)) (fun _ _ => rfl)) (stageMargin (stageDY (stageDeviation (stagePL l))))
  have horig : ∀ x ∈ calculateRanks l, ∃ y ∈ stageMargin (stageDY (stageDeviation (stagePL l))),
      (x.marginSafety, x.rankMargin) = (y.marginSafety, y.rankMargin) := by
    unfold calculateRanks
    exact projOrig_of_projPerm hperm
  exact pairProp_transport (fun s => (s.marginSafety, s.rankMargin))
    (fun p q => rankKey SortOrder.DESC p.1 < rankKey SortOrder.DESC q.1 → p.2 < q.2)
    horig hbase

theorem calc_mono_CAGR (l : List StockData) :
    ∀ a ∈ calculateRanks l, ∀ b ∈ calculateRanks l,
      rankKey SortOrder.DESC a.cagr < rankKey SortOrder.DESC b.cagr →
        a.rankCAGR < b.rankCAGR := by
  have hbase : ∀ a ∈ stageCAGR (stageMargin (stageDY (stageDeviation (stagePL l)))),
      ∀ b ∈ stageCAGR (stageMargin (stageDY (stageDeviation (stagePL l)))),
      rankKey SortOrder.DESC a.cagr < rankKey SortOrder.DESC b.cagr →
        a.rankCAGR < b.rankCAGR := by
    unfold stageCAGR
    exact applyRank_rank_mono _ _ _ _ _ (fun _ _ => rfl) (fun _ _ => rfl)
  have hperm := projPerm_tail6 (fun s => (s.cagr, s.rankCAGR)) (fun _ _ => rfl)
    (fun _ => rfl) (fun _ _ => rfl) (writeBackRank_proj (fun s => (s.cagr, s.rankCAGR)) (fun _ _ => rfl))
    (stageCAGR (stageMargin (stageDY (stageDeviation (stagePL l)))))
  have horig : ∀ x ∈ calculateRanks l,
      ∃ y ∈ stageCAGR (stageMargin (stageDY (stageDeviation (stagePL l)))),
      (x.cagr, x.rankCAGR) = (y.cagr, y.rankCAGR) := by
    unfold calculateRanks
    exact projOrig_of_projPerm hperm
  exact pairProp_transport (fun s => (s.cagr, s.rankCAGR))
    (fun p q => rankKey SortOrder.DESC p.1 < rankKey SortOrder.DESC q.1 → p.2 < q.2)
    horig hbase

theorem calc_mono_Debt (l : List StockData) :
    ∀ a ∈ calculateRanks l, ∀ b ∈ calculateRanks l,
      rankKey SortOrder.ASC a.debtEbitda < rankKey SortOrder.ASC b.debtEbitda →
        a.rankDebt < b.rankDebt := by
  have hbase : ∀ a ∈ stageDebt (stageCAGR (stageMargin (stageDY (stageDeviation (stagePL l))))),
      ∀ b ∈ stageDebt (stageCAGR (stageMargin (stageDY (stageDeviation (stagePL l))))),
      rankKey SortOrder.ASC a.debtEbitda < rankKey SortOrder.ASC b.debtEbitda →
        a.rankDebt < b.rankDebt := by
    unfold stageDebt
    exact applyRank_rank_mono _ _ _ _ _ (fun _ _ => rfl) (fun _ _ => rfl)
  have hperm := projPerm_tail7 (fun s => (s.debtEbitda, s.rankDebt)) (fun _ => rfl)
    (fun _ _ => rfl) (writeBackRank_proj (fun s => (s.debtEbitda, s.rankDebt)) (fun _ _ => rfl))
    (stageDebt (stageCAGR (stageMargin (stageDY (stageDeviation (stagePL l))))))
  have horig : ∀ x ∈ calculateRanks l,
      ∃ y ∈ stageDebt (stageCAGR (stageMargin (stageDY (stageDeviation (stagePL l))))),
      (x.debtEbitda, x.rankDebt) = (y.debtEbitda, y.rankDebt) := by
    unfold calculateRanks
    exact projOrig_of_projPerm hperm
  exact pairProp_transport (fun s => (s.debtEbitda, s.rankDebt))
    (fun p q => rankKey SortOrder.ASC p.1 < rankKey SortOrder.ASC q.1 → p.2 < q.2)
    horig hbase

/-! Elimination of a successful processStockData run. -/

theorem processStockData_ok (rawData : String) (mode : Mode) (rng : ℕ → JStr)
    (res : ProcessResult) (h : processStockData rawData mode rng = Except.ok res) :
    res.processed = calculateRanks (modeStocks rawData mode rng) := by
  cases mode with
  | neto =>
    unfold processStockData at h
    split at h
    · exact Except.noConfusion h
    · rw [Except.ok.injEq] at h
      have hms : modeStocks rawData Mode.neto rng = netoStocks rng (splitRows rawData) := by
        unfold modeStocks
        rfl
      rw [hms, ← h]
  | standard =>
    unfold processStockData at h
    split at h
    · exact Except.noConfusion h
    · rw [Except.ok.injEq] at h
      have hms : modeStocks rawData Mode.standard rng =
          standardStocks rng (splitRows rawData) := by
        unfold modeStocks
        rfl
      rw [hms, ← h]

theorem eq_ok_of_toOption {ε α : Type*} {e : Except ε α} {a : α}
    (h : e.toOption = some a) : e = Except.ok a := by
  cases e with
  | error x => exact Option.noConfusion h
  | ok x => rw [Except.ok.injEq]; exact (Option.some.injEq _ _).mp h

theorem rankKey_ASC_fin (q : ℚ) :
    rankKey SortOrder.ASC (JN.fin q) = (q : WithTop ℚ) := rfl

theorem rankKey_DESC_fin (q : ℚ) :
    rankKey SortOrder.DESC (JN.fin q) = ((qneg q : ℚ) : WithTop ℚ) := rfl

theorem rankKey_negInf (ord : SortOrder) : rankKey ord JN.negInf = ⊤ := rfl

theorem rankKey_posInf (ord : SortOrder) : rankKey ord JN.posInf = ⊤ := rfl

/-- C1: for every non-throwing call to processStockData, in both modes,
with at least one data row, each of the six per-metric rank fields and
rankGeneral, taken across the returned records, is a permutation of
1..N; and the sort underlying every rank assignment breaks key ties by
the position in the array immediately before that sort (stable-sort
semantics): in the sorted index-annotated list, equal keys appear in
strictly increasing original positions. -/
theorem ranks_permutation :
    (∀ (rawData : String) (mode : Mode) (rng : ℕ → JStr) (res : ProcessResult),
      processStockData rawData mode rng = Except.ok res →
      1 ≤ res.processed.length →
        ((res.processed.map (fun s => s.rankPL)).Perm
            (List.range' 1 res.processed.length) ∧
         (res.processed.map (fun s => s.rankDeviation)).Perm
            (List.range' 1 res.processed.length) ∧
         (res.processed.map (fun s => s.rankDY)).Perm
            (List.range' 1 res.processed.length) ∧
         (res.processed.map (fun s => s.rankMargin)).Perm
            (List.range' 1 res.processed.length) ∧
         (res.processed.map (fun s => s.rankCAGR)).Perm
            (List.range' 1 res.processed.length) ∧
         (res.processed.map (fun s => s.rankDebt)).Perm
            (List.range' 1 res.processed.length) ∧
         (res.processed.map (fun s => s.rankGeneral)).Perm
            (List.range' 1 res.processed.length))) ∧
    (∀ (k : StockData → WithTop ℚ) (l : List StockData),
      (stableSortEnum k l).Pairwise (fun x y => k x.2 = k y.2 → x.1 < y.1)) := by
  constructor
  · intro rawData mode rng res h _
    have hp := processStockData_ok rawData mode rng res h
    rw [hp, calculateRanks_length]
    exact ⟨calc_map_rankPL _, calc_map_rankDeviation _, calc_map_rankDY _,
      calc_map_rankMargin _, calc_map_rankCAGR _, calc_map_rankDebt _,
      calc_map_rankGeneral _⟩
  · exact stableSortEnum_stable

/-- Witness for C1 at a concrete two-row neto input. -/
theorem ranks_permutation_witness :
    (((processStockData sampleNeto Mode.neto rng0).toOption.getD dummyRes).processed.map
        (fun s => s.rankPL)).Perm
      (List.range' 1
        ((processStockData sampleNeto Mode.neto rng0).toOption.getD
          dummyRes).processed.length) :=
  (ranks_permutation.1 sampleNeto Mode.neto rng0 _ (eq_ok_of_toOption (by decide))
    (by decide)).1

/-- C2: in a ranked record set, for each of the six metrics, a record
whose finite metric value is strictly better under the declared
direction (ascending for projected P/L, P/L deviation and debt/EBITDA;
descending for dividend yield, margin of safety and CAGR) than the
finite value of another record receives a strictly smaller rank for
that metric. -/
theorem direction_correctness (l : List StockData) :
    ∀ a ∈ calculateRanks l, ∀ b ∈ calculateRanks l,
      (∀ qa qb : ℚ, a.plProjected = JN.fin qa → b.plProjected = JN.fin qb →
        qa < qb → a.rankPL < b.rankPL) ∧
      (∀ qa qb : ℚ, a.plDeviation = JN.fin qa → b.plDeviation = JN.fin qb →
        qa < qb → a.rankDeviation < b.rankDeviation) ∧
      (∀ qa qb : ℚ, a.dy = JN.fin qa → b.dy = JN.fin qb →
        qb < qa → a.rankDY < b.rankDY) ∧
      (∀ qa qb : ℚ, a.marginSafety = JN.fin qa → b.marginSafety = JN.fin qb →
        qb < qa → a.rankMargin < b.rankMargin) ∧
      (∀ qa qb : ℚ, a.cagr = JN.fin qa → b.cagr = JN.fin qb →
        qb < qa → a.rankCAGR < b.rankCAGR) ∧
      (∀ qa qb : ℚ, a.debtEbitda = JN.fin qa → b.debtEbitda = JN.fin qb →
        qa < qb → a.rankDebt < b.rankDebt) := by
  intro a ha b hb
  refine ⟨?_, ?_, ?_, ?_, ?_, ?_⟩
  · intro qa qb hqa hqb hlt
    refine calc_mono_PL l a ha b hb ?_
    rw [hqa, hqb, rankKey_ASC_fin, rankKey_ASC_fin]
    exact WithTop.coe_lt_coe.mpr hlt
  · intro qa qb hqa hqb hlt
    refine calc_mono_Deviation l a ha b hb ?_
    rw [hqa, hqb, rankKey_ASC_fin, rankKey_ASC_fin]
    exact WithTop.coe_lt_coe.mpr hlt
  · intro qa qb hqa hqb hlt
    refine calc_mono_DY l a ha b hb ?_
    rw [hqa, hqb, rankKey_DESC_fin, rankKey_DESC_fin]
    refine WithTop.coe_lt_coe.mpr ?_
    rw [qneg_eq, qneg_eq]
    exact neg_lt_neg hlt
  · intro qa qb hqa hqb hlt
    refine calc_mono_Margin l a ha b hb ?_
    rw [hqa, hqb, rankKey_DESC_fin, rankKey_DESC_fin]
    refine WithTop.coe_lt_coe.mpr ?_
    rw [qneg_eq, qneg_eq]
    exact neg_lt_neg hlt
  · intro qa qb hqa hqb hlt
    refine calc_mono_CAGR l a ha b hb ?_
    rw [hqa, hqb, rankKey_DESC_fin, rankKey_DESC_fin]
    refine WithTop.coe_lt_coe.mpr ?_
    rw [qneg_eq, qneg_eq]
    exact neg_lt_neg hlt
  · intro qa qb hqa hqb hlt
    refine calc_mono_Debt l a ha b hb ?_
    rw [hqa, hqb, rankKey_ASC_fin, rankKey_ASC_fin]
    exact WithTop.coe_lt_coe.mpr hlt

/-- Witness for C2 at a concrete two-record list. -/
theorem direction_correctness_witness :
    ((calculateRanks W2).getD 0 dummyStock).rankPL <
      ((calculateRanks W2).getD 1 dummyStock).rankPL :=
  (direction_correctness W2 _ (by decide) _ (by decide)).1
    (mkRat 1 1) (mkRat 2 1) (by decide) (by decide) (by decide)

/-- C3: in a ranked record set, for each of the six metrics, a record
whose metric value is an infinite sentinel receives a numerically larger
rank for that metric than every record with a finite value, regardless
of the declared sort direction. -/
theorem missing_value_worst (l : List StockData) :
    ∀ a ∈ calculateRanks l, ∀ b ∈ calculateRanks l,
      ((a.plProjected = JN.negInf ∨ a.plProjected = JN.posInf) →
        (∃ q : ℚ, b.plProjected = JN.fin q) → b.rankPL < a.rankPL) ∧
      ((a.plDeviation = JN.negInf ∨ a.plDeviation = JN.posInf) →
        (∃ q : ℚ, b.plDeviation = JN.fin q) → b.rankDeviation < a.rankDeviation) ∧
      ((a.dy = JN.negInf ∨ a.dy = JN.posInf) →
        (∃ q : ℚ, b.dy = JN.fin q) → b.rankDY < a.rankDY) ∧
      ((a.marginSafety = JN.negInf ∨ a.marginSafety = JN.posInf) →
        (∃ q : ℚ, b.marginSafety = JN.fin q) → b.rankMargin < a.rankMargin) ∧
      ((a.cagr = JN.negInf ∨ a.cagr = JN.posInf) →
        (∃ q : ℚ, b.cagr = JN.fin q) → b.rankCAGR < a.rankCAGR) ∧
      ((a.debtEbitda = JN.negInf ∨ a.debtEbitda = JN.posInf) →
        (∃ q : ℚ, b.debtEbitda = JN.fin q) → b.rankDebt < a.rankDebt) := by
  intro a ha b hb
  refine ⟨?_, ?_, ?_, ?_, ?_, ?_⟩
  · rintro hinf ⟨q, hq⟩
    refine calc_mono_PL l b hb a ha ?_
    rcases hinf with h | h <;>
      rw [hq, h] <;>
      first
        | rw [rankKey_negInf, rankKey_ASC_fin]; exact WithTop.coe_lt_top q
        | rw [rankKey_posInf, rankKey_ASC_fin]; exact WithTop.coe_lt_top q
  · rintro hinf ⟨q, hq⟩
    refine calc_mono_Deviation l b hb a ha ?_
    rcases hinf with h | h <;>
      rw [hq, h] <;>
      first
        | rw [rankKey_negInf, rankKey_ASC_fin]; exact WithTop.coe_lt_top q
        | rw [rankKey_posInf, rankKey_ASC_fin]; exact WithTop.coe_lt_top q
  · rintro hinf ⟨q, hq⟩
    refine calc_mono_DY l b hb a ha ?_
    rcases hinf with h | h <;>
      rw [hq, h] <;>
      first
        | rw [rankKey_negInf, rankKey_DESC_fin]; exact WithTop.coe_lt_top (qneg q)
        | rw [rankKey_posInf, rankKey_DESC_fin]; exact WithTop.coe_lt_top (qneg q)
  · rintro hinf ⟨q, hq⟩
    refine calc_mono_Margin l b hb a ha ?_
    rcases hinf with h | h <;>
      rw [hq, h] <;>
      first
        | rw [rankKey_negInf, rankKey_DESC_fin]; exact WithTop.coe_lt_top (qneg q)
        | rw [rankKey_posInf, rankKey_DESC_fin]; exact WithTop.coe_lt_top (qneg q)
  · rintro hinf ⟨q, hq⟩
    refine calc_mono_CAGR l b hb a ha ?_
    rcases hinf with h | h <;>
      rw [hq, h] <;>
      first
        | rw [rankKey_negInf, rankKey_DESC_fin]; exact WithTop.coe_lt_top (qneg q)
        | rw [rankKey_posInf, rankKey_DESC_fin]; exact WithTop.coe_lt_top (qneg q)
  · rintro hinf ⟨q, hq⟩
    refine calc_mono_Debt l b hb a ha ?_
    rcases hinf with h | h <;>
      rw [hq, h] <;>
      first
        | rw [rankKey_negInf, rankKey_ASC_fin]; exact WithTop.coe_lt_top q
        | rw [rankKey_posInf, rankKey_ASC_fin]; exact WithTop.coe_lt_top q

/-- Witness for C3 at a concrete two-record list. -/
theorem missing_value_worst_witness :
    ((calculateRanks W3).getD 0 dummyStock).rankPL <
      ((calculateRanks W3).getD 1 dummyStock).rankPL :=
  (missing_value_worst W3 _ (by decide) _ (by decide)).1
    (Or.inl (by decide)) ⟨mkRat 1 1, by decide⟩

/-! Character and scanning helper lemmas for the parser proofs. -/

theorem isDigit_ne (c : Char) (h : c.isDigit = true) (d : Char)
    (hd : d.isDigit = false) : c ≠ d := by
  intro he
  rw [he, hd] at h
  exact Bool.noConfusion h

theorem isDigit_not_ws (c : Char) (h : c.isDigit = true) : c.isWhitespace = false := by
  by_contra hw
  rw [Bool.not_eq_false] at hw
  have hc := hw
  simp only [Char.isWhitespace, Bool.or_eq_true, decide_eq_true_eq] at hc
  rcases hc with ((rfl | rfl) | rfl) | rfl <;> exact absurd h (by decide)

theorem digit_not_stripped (c : Char) (h : c.isDigit = true) : strippedChar c = false := by
  unfold strippedChar
  rw [isDigit_not_ws c h,
    beq_eq_false_iff_ne.mpr (isDigit_ne c h 'R' (by decide)),
    beq_eq_false_iff_ne.mpr (isDigit_ne c h '$' (by decide)),
    beq_eq_false_iff_ne.mpr (isDigit_ne c h '%' (by decide))]
  rfl

theorem takeWhile_all_append (p : Char → Bool) (l₁ l₂ : JStr)
    (h : ∀ c ∈ l₁, p c = true) :
    (l₁ ++ l₂).takeWhile p = l₁ ++ l₂.takeWhile p := by
  induction l₁ with
  | nil => rfl
  | cons c t ih =>
    rw [List.cons_append, List.takeWhile_cons, h c (List.mem_cons_self c t), if_pos rfl,
      List.cons_append, ih (fun x hx => h x (List.mem_cons_of_mem c hx))]

theorem dropWhile_all_append (p : Char → Bool) (l₁ l₂ : JStr)
    (h : ∀ c ∈ l₁, p c = true) :
    (l₁ ++ l₂).dropWhile p = l₂.dropWhile p := by
  induction l₁ with
  | nil => rfl
  | cons c t ih =>
    rw [List.cons_append, List.dropWhile_cons, h c (List.mem_cons_self c t), if_pos rfl,
      ih (fun x hx => h x (List.mem_cons_of_mem c hx))]

theorem takeWhile_all (p : Char → Bool) (l : JStr) (h : ∀ c ∈ l, p c = true) :
    l.takeWhile p = l := by
  have h1 := takeWhile_all_append p l [] h
  simpa using h1

theorem dropWhile_all (p : Char → Bool) (l : JStr) (h : ∀ c ∈ l, p c = true) :
    l.dropWhile p = [] := by
  have h1 := dropWhile_all_append p l [] h
  simpa using h1

theorem replaceFirst_skip (a b : Char) (l₁ l₂ : JStr) (h : ∀ c ∈ l₁, c ≠ a) :
    replaceFirst a b (l₁ ++ a :: l₂) = l₁ ++ b :: l₂ := by
  induction l₁ with
  | nil => simp [replaceFirst]
  | cons c t ih =>
    rw [List.cons_append, replaceFirst, if_neg (h c (List.mem_cons_self c t)),
      ih (fun x hx => h x (List.mem_cons_of_mem c hx)), List.cons_append]

theorem signSplit_cons_of_ne (c : Char) (r : JStr) (h1 : c ≠ '-') (h2 : c ≠ '+') :
    signSplit (c :: r) = (false, c :: r) := by
  show (if c = '-' then ((true : Bool), r) else if c = '+' then ((false : Bool), r)
    else ((false : Bool), c :: r)) = ((false : Bool), c :: r)
  rw [if_neg h1, if_neg h2]

theorem filter_group_chars (G : List JStr)
    (hG : ∀ g ∈ G, ∀ c ∈ g, c.isDigit = true) :
    ((G.map (fun g => '.' :: g)).flatten).filter (fun c => !(strippedChar c)) =
      (G.map (fun g => '.' :: g)).flatten := by
  rw [List.filter_eq_self]
  intro c hc
  rw [List.mem_flatten] at hc
  obtain ⟨l, hl, hcl⟩ := hc
  rw [List.mem_map] at hl
  obtain ⟨g, hg, rfl⟩ := hl
  rcases List.mem_cons.mp hcl with rfl | hcg
  · decide
  · rw [digit_not_stripped c (hG g hg c hcg)]
    rfl

theorem filter_dot_group_chars (G : List JStr)
    (hG : ∀ g ∈ G, ∀ c ∈ g, c.isDigit = true) :
    ((G.map (fun g => '.' :: g)).flatten).filter (fun c => c ≠ '.') = G.flatten := by
  induction G with
  | nil => rfl
  | cons g t ih =>
    rw [List.map_cons, List.flatten_cons, List.filter_append, List.filter_cons]
    rw [show (decide (('.' : Char) ≠ '.')) = false by decide]
    rw [if_neg (Bool.false_ne_true)]
    rw [List.filter_eq_self.mpr
      (fun c hc => decide_eq_true (isDigit_ne c (hG g (List.mem_cons_self g t) c hc) '.'
        (by decide)))]
    rw [ih (fun g1 hg1 => hG g1 (List.mem_cons_of_mem g hg1)), List.flatten_cons]

theorem cleanBR_pattern (I F : JStr) (G : List JStr) (pct : Bool)
    (hId : ∀ c ∈ I, c.isDigit = true)
    (hG : ∀ g ∈ G, ∀ c ∈ g, c.isDigit = true)
    (hF : ∀ c ∈ F, c.isDigit = true) :
    cleanBR (I ++ (G.map (fun g => '.' :: g)).flatten ++ [','] ++ F ++
        (if pct then ['%'] else [])) =
      (I ++ G.flatten) ++ '.' :: F := by
  have hfI : ∀ c ∈ I, (!(strippedChar c)) = true := fun c hc => by
    rw [digit_not_stripped c (hId c hc)]; rfl
  have hfF : ∀ c ∈ F, (!(strippedChar c)) = true := fun c hc => by
    rw [digit_not_stripped c (hF c hc)]; rfl
  have h1 : (I ++ (G.map (fun g => '.' :: g)).flatten ++ [','] ++ F ++
      (if pct then ['%'] else [])).filter (fun c => !(strippedChar c)) =
      I ++ (G.map (fun g => '.' :: g)).flatten ++ [','] ++ F := by
    rw [List.filter_append, List.filter_append, List.filter_append, List.filter_append]
    rw [List.filter_eq_self.mpr hfI, List.filter_eq_self.mpr hfF, filter_group_chars G hG]
    rw [show List.filter (fun c => !(strippedChar c)) [','] = [','] by decide]
    rw [show List.filter (fun c => !(strippedChar c)) (if pct then ['%'] else []) = []
      by cases pct <;> decide]
    rw [List.append_nil]
  have h2 : (I ++ (G.map (fun g => '.' :: g)).flatten ++ [','] ++ F).filter
      (fun c => c ≠ '.') = I ++ G.flatten ++ [','] ++ F := by
    rw [List.filter_append, List.filter_append, List.filter_append]
    rw [List.filter_eq_self.mpr (fun c hc =>
        decide_eq_true (isDigit_ne c (hId c hc) '.' (by decide))),
      List.filter_eq_self.mpr (fun c hc =>
        decide_eq_true (isDigit_ne c (hF c hc) '.' (by decide))),
      filter_dot_group_chars G hG]
    rw [show List.filter (fun c => c ≠ '.') [','] = [','] by decide]
  unfold cleanBR
  rw [h1, h2]
  rw [List.append_assoc (I ++ G.flatten) [','] F]
  rw [show (([','] ++ F) : JStr) = ',' :: F from rfl]
  exact replaceFirst_skip ',' '.' (I ++ G.flatten) F (fun c hc => by
    rcases List.mem_append.mp hc with hcI | hcG
    · exact isDigit_ne c (hId c hcI) ',' (by decide)
    · rw [List.mem_flatten] at hcG
      obtain ⟨g, hg, hcg⟩ := hcG
      exact isDigit_ne c (hG g hg c hcg) ',' (by decide))

theorem jsParseFloat_digits (D F : JStr) (hD : D ≠ [])
    (hDd : ∀ c ∈ D, c.isDigit = true) (hF : ∀ c ∈ F, c.isDigit = true) :
    jsParseFloat (D ++ '.' :: F) =
      JN.fin (qmul (qadd (qnat (digitsVal D)) (mkRat (digitsVal F) (10 ^ F.length)))
        (pow10 0)) := by
  obtain ⟨d, D', rfl⟩ : ∃ d D', D = d :: D' := by
    cases D with
    | nil => exact absurd rfl hD
    | cons d D' => exact ⟨d, D', rfl⟩
  have hd : d.isDigit = true := hDd d (List.mem_cons_self d D')
  have hsgn : signSplit ((d :: D') ++ '.' :: F) = (false, (d :: D') ++ '.' :: F) := by
    rw [List.cons_append]
    rw [signSplit_cons_of_ne d (D' ++ '.' :: F) (isDigit_ne d hd '-' (by decide))
      (isDigit_ne d hd '+' (by decide))]
  unfold jsParseFloat
  rw [hsgn]
  show jsParseFloatCore false ((d :: D') ++ '.' :: F) = _
  unfold jsParseFloatCore
  have hpre : (("Infinity").data.isPrefixOf ((d :: D') ++ '.' :: F)) = false := by
    rw [List.cons_append]
    show (('I' == d) && _) = false
    rw [beq_eq_false_iff_ne.mpr (Ne.symm (isDigit_ne d hd 'I' (by decide)))]
    rfl
  rw [hpre, if_neg (Bool.false_ne_true)]
  have htake : ((d :: D') ++ '.' :: F).takeWhile Char.isDigit = d :: D' := by
    rw [takeWhile_all_append Char.isDigit (d :: D') ('.' :: F) hDd,
      List.takeWhile_cons, show ('.' : Char).isDigit = false by decide]
    simp
  have hdrop : ((d :: D') ++ '.' :: F).dropWhile Char.isDigit = '.' :: F := by
    rw [dropWhile_all_append Char.isDigit (d :: D') ('.' :: F) hDd,
      List.dropWhile_cons, show ('.' : Char).isDigit = false by decide]
    simp
  rw [htake, hdrop]
  have hfrac : fracSplit ('.' :: F) = (F, []) := by
    show (F.takeWhile Char.isDigit, F.dropWhile Char.isDigit) = (F, [])
    rw [takeWhile_all Char.isDigit F hF, dropWhile_all Char.isDigit F hF]
  rw [hfrac]
  unfold jsBuildNum
  rw [if_neg (fun hc => by simp at hc)]
  rfl

theorem parseBRNumber_some (cs : JStr) :
    parseBRNumber (some cs) =
      if cs.isEmpty then JN.negInf
      else
        match jsParseFloat (cleanBR cs) with
        | JN.nan => JN.negInf
        | v => v := rfl

/-- C4 counterexample: the claim that parseBRNumberAsc yields positive
infinity exactly when parseBRNumber yields negative infinity fails on
the input Infinity, which parseFloat accepts as the infinite literal:
the primary parser returns positive infinity, not negative infinity,
while the ascending variant also returns positive infinity. -/
theorem parser_asc_infinity_cex :
    parseBRNumberAsc (some (("Infinity").data)) = JN.posInf ∧
      parseBRNumber (some (("Infinity").data)) ≠ JN.negInf := by decide

/-- C4 (amended): strings matching digits, dot-separated digit groups, a
comma, optional fraction digits and an optional percent sign parse to
the finite number obtained by deleting the dots and reading the comma
as the decimal point; an undefined value and every string whose cleaned
form has no parseFloat-readable prefix parse to negative infinity; and
the ascending variant returns positive infinity exactly when the
primary parser returns negative infinity or positive infinity (the
latter only for cleaned strings carrying the Infinity literal), and
agrees with the primary parser otherwise. -/
theorem parseBR_soundness :
    (∀ (I F : JStr) (G : List JStr) (pct : Bool),
      I ≠ [] → (∀ c ∈ I, c.isDigit = true) →
      (∀ g ∈ G, g ≠ [] ∧ ∀ c ∈ g, c.isDigit = true) →
      (∀ c ∈ F, c.isDigit = true) →
      parseBRNumber (some (I ++ (G.map (fun g => '.' :: g)).flatten ++ [','] ++ F ++
          (if pct then ['%'] else []))) =
        JN.fin ((digitsVal (I ++ G.flatten) : ℚ) +
          (digitsVal F : ℚ) / (10 : ℚ) ^ F.length)) ∧
    (parseBRNumber none = JN.negInf ∧
      ∀ cs : JStr, jsParseFloat (cleanBR cs) = JN.nan →
        parseBRNumber (some cs) = JN.negInf) ∧
    (∀ c : Cell,
      (parseBRNumberAsc c = JN.posInf ↔
        (parseBRNumber c = JN.negInf ∨ parseBRNumber c = JN.posInf)) ∧
      (parseBRNumber c ≠ JN.negInf → parseBRNumberAsc c = parseBRNumber c)) := by
  refine ⟨?_, ⟨rfl, ?_⟩, ?_⟩
  · intro I F G pct hI hId hG hF
    have hne : ¬((I ++ (G.map (fun g => '.' :: g)).flatten ++ [','] ++ F ++
        (if pct then ['%'] else [])).isEmpty = true) := by
      rw [List.isEmpty_iff]
      intro habs
      simp [List.append_eq_nil] at habs
    rw [parseBRNumber_some, if_neg hne]
    rw [cleanBR_pattern I F G pct hId (fun g hg => (hG g hg).2) hF]
    rw [jsParseFloat_digits (I ++ G.flatten) F
      (fun h => hI (List.append_eq_nil.mp h).1)
      (fun c hc => by
        rcases List.mem_append.mp hc with hcI | hcG
        · exact hId c hcI
        · rw [List.mem_flatten] at hcG
          obtain ⟨g, hg, hcg⟩ := hcG
          exact (hG g hg).2 c hcg)
      hF]
    show JN.fin _ = JN.fin _
    rw [show pow10 0 = qnat 1 by decide]
    rw [qmul_eq, qadd_eq, qnat_eq, qnat_eq, Rat.mkRat_eq_div]
    push_cast
    ring_nf
  · intro cs h
    rw [parseBRNumber_some]
    by_cases he : cs.isEmpty = true
    · rw [if_pos he]
    · rw [if_neg he, h]
  · intro c
    by_cases hn : parseBRNumber c = JN.negInf
    · exact ⟨by simp [parseBRNumberAsc, hn], by simp [parseBRNumberAsc, hn]⟩
    · exact ⟨by simp [parseBRNumberAsc, hn], fun _ => by simp [parseBRNumberAsc, hn]⟩

/-- Witness for C4 at the concrete input 1.234,56 with a percent
sign. -/
theorem parseBR_soundness_witness :
    parseBRNumber (some (("1.234,56%").data)) =
      JN.fin ((digitsVal (("1234").data) : ℚ) +
        (digitsVal (("56").data) : ℚ) / (10 : ℚ) ^ (("56").data).length) :=
  parseBR_soundness.1 (("1").data) (("56").data) [("234").data] true
    (by decide) (by decide) (by decide) (by decide)

theorem modeStocks_neto (rawData : String) (rng : ℕ → JStr) :
    modeStocks rawData Mode.neto rng = netoStocks rng (splitRows rawData) := rfl

/-- C5: processStockData raises the malformed-input error exactly when
the trimmed input splits into fewer than two lines, in both modes; with
two or more lines it returns a result and raises nothing. -/
theorem malformed_input :
    ∀ (rawData : String) (mode : Mode) (rng : ℕ → JStr),
      ((splitRows rawData).length < 2 ↔
        processStockData rawData mode rng = Except.error (("Dados insuficientes.").data)) ∧
      (2 ≤ (splitRows rawData).length ↔
        ∃ res, processStockData rawData mode rng = Except.ok res) := by
  intro rawData mode rng
  constructor
  · constructor
    · intro h
      unfold processStockData
      rw [if_pos h]
    · intro h
      by_contra hlt
      rw [not_lt] at hlt
      unfold processStockData at h
      rw [if_neg (not_lt.mpr hlt)] at h
      cases mode <;> exact Except.noConfusion h
  · constructor
    · intro h
      unfold processStockData
      rw [if_neg (not_lt.mpr h)]
      cases mode with
      | standard => exact ⟨_, rfl⟩
      | neto => exact ⟨_, rfl⟩
    · rintro ⟨res, h⟩
      by_contra hlt
      rw [not_le] at hlt
      unfold processStockData at h
      rw [if_pos hlt] at h
      exact Except.noConfusion h

/-- Witness for C5 at a concrete single-line input. -/
theorem malformed_input_witness :
    processStockData ("abc") Mode.standard rng0 =
      Except.error (("Dados insuficientes.").data) :=
  ((malformed_input ("abc") Mode.standard rng0).1).mp (by decide)

/-- C6: after a successful processStockData run in either mode, and
provided no price difference is NaN (reachable only through literal
Infinity price cells, where the comparator of the source becomes
inconsistent and the sort order implementation-defined), the returned
records are ordered non-decreasing by the price-difference key that
remaps the missing sentinel, and the positive one, to worst; records
with a missing price difference therefore come last.  The ordering is
applied as the last pipeline step, independent of any rank. -/
theorem default_ordering :
    ∀ (rawData : String) (mode : Mode) (rng : ℕ → JStr) (res : ProcessResult),
      processStockData rawData mode rng = Except.ok res →
      (∀ s ∈ res.processed, s.priceDiff ≠ JN.nan) →
      res.processed.Pairwise (fun a b => finalKey a.priceDiff ≤ finalKey b.priceDiff) := by
  intro rawData mode rng res h _
  rw [processStockData_ok rawData mode rng res h]
  unfold calculateRanks finalSort
  exact stableSortKey_pairwise _ _

/-- Witness for C6 at a concrete two-row neto input. -/
theorem default_ordering_witness :
    ((processStockData sampleNeto Mode.neto rng0).toOption.getD dummyRes).processed.Pairwise
      (fun a b => finalKey a.priceDiff ≤ finalKey b.priceDiff) :=
  default_ordering sampleNeto Mode.neto rng0 _ (eq_ok_of_toOption (by decide)) (by decide)

/-- C7 counterexample: in neto mode a record with present prices, price
zero and fair price ten, keeps price difference zero although the
claimed formula gives a nonzero value, because the source also requires
the current price to compare greater than zero. -/
theorem neto_pricediff_cex :
    (((processStockData cexNetoZero Mode.neto rng0).toOption.getD dummyRes).processed.map
        (fun s => (s.currentPrice, s.fairPrice, s.priceDiff))) =
      [(JN.fin 0, JN.fin (mkRat 10 1), JN.fin 0)] ∧
    (0 : ℚ) ≠ (0 - mkRat 10 1) / mkRat 10 1 * 100 := by
  refine ⟨by decide, ?_⟩
  rw [Rat.mkRat_eq_div]
  norm_num

theorem jSub_fin (a b : ℚ) : jSub (JN.fin a) (JN.fin b) = JN.fin (qsub a b) := rfl

theorem jMul100_fin (a : ℚ) : jMul100 (JN.fin a) = JN.fin (qmul a (qnat 100)) := rfl

theorem jDiv_fin (a b : ℚ) (hb : b ≠ 0) :
    jDiv (JN.fin a) (JN.fin b) = JN.fin (qdiv a b) := by
  show (if b = 0 then (if a = 0 then JN.nan else if a < 0 then JN.negInf else JN.posInf)
    else JN.fin (qdiv a b)) = JN.fin (qdiv a b)
  rw [if_neg hb]

theorem netoPriceDiff_spec (s : StockData) (h0 : s.priceDiff = JN.fin 0) :
    (∀ qc qf : ℚ, (netoPriceDiff s).currentPrice = JN.fin qc →
      (netoPriceDiff s).fairPrice = JN.fin qf → 0 < qc → 0 < qf →
      (netoPriceDiff s).priceDiff = JN.fin ((qc - qf) / qf * 100)) ∧
    (¬(jGtZero (netoPriceDiff s).currentPrice = true ∧
        jGtZero (netoPriceDiff s).fairPrice = true) →
      (netoPriceDiff s).priceDiff = JN.fin 0) := by
  unfold netoPriceDiff
  by_cases hg : (jGtZero s.currentPrice && jGtZero s.fairPrice) = true
  · rw [if_pos hg]
    constructor
    · intro qc qf hc hf h0c h0f
      have hc1 : s.currentPrice = JN.fin qc := hc
      have hf1 : s.fairPrice = JN.fin qf := hf
      show jMul100 (jDiv (jSub s.currentPrice s.fairPrice) s.fairPrice) = _
      rw [hc1, hf1, jSub_fin, jDiv_fin _ _ h0f.ne', jMul100_fin,
        qmul_eq, qdiv_eq, qsub_eq, qnat_eq]
      norm_num
    · intro hc
      exact absurd ⟨(Bool.and_eq_true _ _).mp hg |>.1,
        (Bool.and_eq_true _ _).mp hg |>.2⟩ hc
  · rw [if_neg hg]
    constructor
    · intro qc qf hc hf h0c h0f
      have hc1 : s.currentPrice = JN.fin qc := hc
      have hf1 : s.fairPrice = JN.fin qf := hf
      exact absurd ((Bool.and_eq_true _ _).mpr
        ⟨by rw [hc1]; exact decide_eq_true h0c, by rw [hf1]; exact decide_eq_true h0f⟩) hg
    · intro _
      exact h0

/-- C7 (amended): in neto mode, every returned record has price
difference equal to (current - fair) / fair * 100 whenever both prices
are finite and strictly positive, and equal to zero whenever either
price fails the greater-than-zero test of the source (the missing
sentinel, zero and negative values all fail it; an infinite parsed
price passes it and produces a non-finite difference outside both
cases). -/
theorem neto_pricediff_amended :
    ∀ (rawData : String) (rng : ℕ → JStr) (res : ProcessResult),
      processStockData rawData Mode.neto rng = Except.ok res →
      ∀ s ∈ res.processed,
        (∀ qc qf : ℚ, s.currentPrice = JN.fin qc → s.fairPrice = JN.fin qf →
          0 < qc → 0 < qf → s.priceDiff = JN.fin ((qc - qf) / qf * 100)) ∧
        (¬(jGtZero s.currentPrice = true ∧ jGtZero s.fairPrice = true) →
          s.priceDiff = JN.fin 0) := by
  intro rawData rng res h s hs
  rw [processStockData_ok rawData Mode.neto rng res h, modeStocks_neto] at hs
  refine allProp_calculateRanks
    (fun s => (∀ qc qf : ℚ, s.currentPrice = JN.fin qc → s.fairPrice = JN.fin qf →
        0 < qc → 0 < qf → s.priceDiff = JN.fin ((qc - qf) / qf * 100)) ∧
      (¬(jGtZero s.currentPrice = true ∧ jGtZero s.fairPrice = true) →
        s.priceDiff = JN.fin 0))
    (fun _ _ ka => ka) (fun _ _ kb => kb) (fun _ _ kc => kc) (fun _ _ kd => kd)
    (fun _ _ ke => ke) (fun _ _ kf => kf) (fun _ kg => kg) (fun _ _ kk => kk)
    (fun s h => by
      unfold writeBackRank
      split
      · exact h
      · exact h)
    (netoStocks rng (splitRows rawData)) ?_ s hs
  intro y hy
  unfold netoStocks at hy
  obtain ⟨y0, hy0, rfl⟩ := List.mem_map.mp hy
  obtain ⟨p, hp, rfl⟩ := List.mem_map.mp hy0
  exact netoPriceDiff_spec (mkNetoStock rng p) rfl

/-- Witness for C7 at a concrete one-row neto input with price twenty
and fair price ten. -/
theorem neto_pricediff_amended_witness :
    (((processStockData netoPosInput Mode.neto rng0).toOption.getD
        dummyRes).processed.getD 0 dummyStock).priceDiff =
      JN.fin ((mkRat 20 1 - mkRat 10 1) / mkRat 10 1 * 100) :=
  (neto_pricediff_amended netoPosInput rng0
    ((processStockData netoPosInput Mode.neto rng0).toOption.getD dummyRes)
    (eq_ok_of_toOption (by decide)) _
    (by decide)).1 (mkRat 20 1) (mkRat 10 1) (by decide) (by decide) (by decide) (by decide)

/-- C8 counterexample: in neto mode, a data row carrying 30 cells gets
its display row mutated by the rank write-back: position 0, holding X
in the source row, holds the rank numeral 1 in the returned record; so
neto-mode display rows are not never-mutated. -/
theorem writeback_neto_cex :
    (((processStockData cexNeto30 Mode.neto rng0).toOption.getD dummyRes).processed.map
        (fun s => s.raw.get? 0)) = [some (some (("1").data))] ∧
    ((splitRows cexNeto30).getD 1 []).get? 0 = some (("X").data) ∧
    (("1").data : JStr) ≠ ("X").data := ⟨by decide, by decide, by decide⟩

/-- C8 (amended): the write-back loop runs only when the first record
holds a display row of at least 9 cells, and then mutates exactly the
records whose own display row holds at least 30 cells, whatever the
mode: such a record gets positions 0 and 2 through 8 overwritten with
the string forms of rankGeneral, rankPL, rankDeviation, rankDY,
rankMargin, rankCAGR, rankDebt and rankTotal in that fixed order, every
other position and every non-row field staying unchanged; rows shorter
than 30 cells are never mutated.  Standard-mode rows are padded to 33
cells and thus always written; neto-mode rows are padded to 21 cells
and escape the write-back unless the source row itself carried at least
30 cells. -/
theorem writeback_rank_spec :
    (∀ (l : List StockData) (s0 : StockData), l.head? = some s0 →
      s0.raw.length < 9 → writeBackStage l = l) ∧
    (∀ (l : List StockData) (s0 : StockData), l.head? = some s0 →
      9 ≤ s0.raw.length → writeBackStage l = l.map writeBackRank) ∧
    (∀ s : StockData, s.raw.length < 30 → writeBackRank s = s) ∧
    (∀ s : StockData, 30 ≤ s.raw.length →
      (writeBackRank s).raw.length = s.raw.length ∧
      { writeBackRank s with raw := s.raw } = s ∧
      (writeBackRank s).raw.get? 0 = some (some (toString s.rankGeneral).data) ∧
      (writeBackRank s).raw.get? 2 = some (some (toString s.rankPL).data) ∧
      (writeBackRank s).raw.get? 3 = some (some (toString s.rankDeviation).data) ∧
      (writeBackRank s).raw.get? 4 = some (some (toString s.rankDY).data) ∧
      (writeBackRank s).raw.get? 5 = some (some (toString s.rankMargin).data) ∧
      (writeBackRank s).raw.get? 6 = some (some (toString s.rankCAGR).data) ∧
      (writeBackRank s).raw.get? 7 = some (some (toString s.rankDebt).data) ∧
      (writeBackRank s).raw.get? 8 = some (some (toString s.rankTotal).data) ∧
      (∀ j, j ≠ 0 → (j < 2 ∨ 8 < j) →
        (writeBackRank s).raw.get? j = s.raw.get? j)) := by
  refine ⟨?_, ?_, ?_, ?_⟩
  · intro l s0 hh hlen
    cases l with
    | nil => rfl
    | cons a t =>
      rw [List.head?_cons, Option.some.injEq] at hh
      subst hh
      show (if 9 ≤ a.raw.length then (a :: t).map writeBackRank else a :: t) = a :: t
      rw [if_neg (not_le.mpr hlen)]
  · intro l s0 hh hlen
    cases l with
    | nil => exact Option.noConfusion hh
    | cons a t =>
      rw [List.head?_cons, Option.some.injEq] at hh
      subst hh
      show (if 9 ≤ a.raw.length then (a :: t).map writeBackRank else a :: t) =
        (a :: t).map writeBackRank
      rw [if_pos hlen]
  · intro s hlen
    unfold writeBackRank
    rw [if_neg (not_le.mpr hlen)]
  · intro s hlen
    unfold writeBackRank
    rw [if_pos hlen]
    have h0 : 0 < s.raw.length := by omega
    have h2 : 2 < s.raw.length := by omega
    have h3 : 3 < s.raw.length := by omega
    have h4 : 4 < s.raw.length := by omega
    have h5 : 5 < s.raw.length := by omega
    have h6 : 6 < s.raw.length := by omega
    have h7 : 7 < s.raw.length := by omega
    have h8 : 8 < s.raw.length := by omega
    refine ⟨by simp [List.length_set], rfl, ?_, ?_, ?_, ?_, ?_, ?_, ?_, ?_, ?_⟩
    · simp [List.get?_eq_getElem?, List.getElem?_set, List.length_set, h0]
    · simp [List.get?_eq_getElem?, List.getElem?_set, List.length_set, h2]
    · simp [List.get?_eq_getElem?, List.getElem?_set, List.length_set, h3]
    · simp [List.get?_eq_getElem?, List.getElem?_set, List.length_set, h4]
    · simp [List.get?_eq_getElem?, List.getElem?_set, List.length_set, h5]
    · simp [List.get?_eq_getElem?, List.getElem?_set, List.length_set, h6]
    · simp [List.get?_eq_getElem?, List.getElem?_set, List.length_set, h7]
    · simp [List.get?_eq_getElem?, List.getElem?_set, List.length_set, h8]
    · intro j hj0 hj
      simp only [List.get?_eq_getElem?, List.getElem?_set, List.length_set]
      split_ifs <;> first | rfl | omega

/-- Witness for C8 at a concrete record with a 30-cell display row. -/
theorem writeback_rank_spec_witness :
    (writeBackRank stock30).raw.get? 0 =
      some (some (toString stock30.rankGeneral).data) :=
  (writeback_rank_spec.2.2.2 stock30 (by decide)).2.2.1

/-! Padding and row-shape lemmas for the raw-row invariant. -/

theorem snd_mem_of_mem_enum {α : Type*} {p : ℕ × α} {l : List α} (h : p ∈ l.enum) :
    p.2 ∈ l := by
  have h1 := List.mem_map_of_mem Prod.snd h
  rwa [List.enum_map_snd] at h1

theorem padTo_length (n : ℕ) (r : List Cell) : (padTo n r).length = max n r.length := by
  unfold padTo
  rw [List.length_append, List.length_replicate]
  omega

theorem padTo_get_pad (n : ℕ) (r : List Cell) (j : ℕ) (hjr : r.length ≤ j)
    (hjl : j < (padTo n r).length) : (padTo n r).get? j = some (some []) := by
  unfold padTo at hjl ⊢
  rw [List.length_append, List.length_replicate] at hjl
  rw [List.get?_eq_getElem?, List.getElem?_append, if_neg (by omega),
    List.getElem?_replicate, if_pos (by omega)]

theorem padTo_isSome (n : ℕ) (r : List Cell) (h : ∀ c ∈ r, c.isSome = true) :
    ∀ c ∈ padTo n r, c.isSome = true := by
  intro c hc
  rcases List.mem_append.mp hc with hc | hc
  · exact h c hc
  · rw [List.eq_of_mem_replicate hc]
    rfl

theorem writeBackRank_rawProp (H : ℕ) (R : List (List Cell)) (somok : Prop)
    (s : StockData)
    (h : H ≤ s.raw.length ∧
      (∃ r ∈ R, s.raw.length = max H r.length ∧
        ∀ j, 9 ≤ j → r.length ≤ j → j < s.raw.length → s.raw.get? j = some (some [])) ∧
      (somok → ∀ c ∈ s.raw, c.isSome = true)) :
    H ≤ (writeBackRank s).raw.length ∧
      (∃ r ∈ R, (writeBackRank s).raw.length = max H r.length ∧
        ∀ j, 9 ≤ j → r.length ≤ j → j < (writeBackRank s).raw.length →
          (writeBackRank s).raw.get? j = some (some [])) ∧
      (somok → ∀ c ∈ (writeBackRank s).raw, c.isSome = true) := by
  unfold writeBackRank
  split
  · obtain ⟨h1, ⟨r, hr, hlen, hpad⟩, hsome⟩ := h
    refine ⟨by simpa [List.length_set] using h1, ⟨r, hr, by simpa [List.length_set] using hlen,
      ?_⟩, ?_⟩
    · intro j hj9 hjr hjlt
      have hjlt1 : j < s.raw.length := by
        have := hjlt
        simpa [List.length_set] using this
      rw [List.get?_eq_getElem?, List.getElem?_set_ne (by omega),
        List.getElem?_set_ne (by omega), List.getElem?_set_ne (by omega),
        List.getElem?_set_ne (by omega), List.getElem?_set_ne (by omega),
        List.getElem?_set_ne (by omega), List.getElem?_set_ne (by omega),
        List.getElem?_set_ne (by omega), ← List.get?_eq_getElem?]
      exact hpad j hj9 hjr hjlt1
    · intro hk c hc
      rcases List.mem_or_eq_of_mem_set hc with hc | rfl
      rotate_left
      · rfl
      rcases List.mem_or_eq_of_mem_set hc with hc | rfl
      rotate_left
      · rfl
      rcases List.mem_or_eq_of_mem_set hc with hc | rfl
      rotate_left
      · rfl
      rcases List.mem_or_eq_of_mem_set hc with hc | rfl
      rotate_left
      · rfl
      rcases List.mem_or_eq_of_mem_set hc with hc | rfl
      rotate_left
      · rfl
      rcases List.mem_or_eq_of_mem_set hc with hc | rfl
      rotate_left
      · rfl
      rcases List.mem_or_eq_of_mem_set hc with hc | rfl
      rotate_left
      · rfl
      rcases List.mem_or_eq_of_mem_set hc with hc | rfl
      rotate_left
      · rfl
      exact hsome hk c hc
  · exact h

theorem rawProp_calculateRanks (H : ℕ) (R : List (List Cell)) (somok : Prop)
    (l : List StockData)
    (base : ∀ y ∈ l, H ≤ y.raw.length ∧
      (∃ r ∈ R, y.raw.length = max H r.length ∧
        ∀ j, 9 ≤ j → r.length ≤ j → j < y.raw.length → y.raw.get? j = some (some [])) ∧
      (somok → ∀ c ∈ y.raw, c.isSome = true)) :
    ∀ x ∈ calculateRanks l, H ≤ x.raw.length ∧
      (∃ r ∈ R, x.raw.length = max H r.length ∧
        ∀ j, 9 ≤ j → r.length ≤ j → j < x.raw.length → x.raw.get? j = some (some [])) ∧
      (somok → ∀ c ∈ x.raw, c.isSome = true) :=
  allProp_calculateRanks _
    (fun _ _ ja => ja) (fun _ _ jb => jb) (fun _ _ jc => jc) (fun _ _ jd => jd)
    (fun _ _ je => je) (fun _ _ jf => jf) (fun _ jg => jg) (fun _ _ jk => jk)
    (writeBackRank_rawProp H R somok) l base

theorem processStockData_ok_headers (rawData : String) (mode : Mode) (rng : ℕ → JStr)
    (res : ProcessResult) (h : processStockData rawData mode rng = Except.ok res) :
    res.headers = modeHeaders mode := by
  cases mode with
  | neto =>
    unfold processStockData at h
    split at h
    · exact Except.noConfusion h
    · rw [Except.ok.injEq] at h
      rw [← h]
      rfl
  | standard =>
    unfold processStockData at h
    split at h
    · exact Except.noConfusion h
    · rw [Except.ok.injEq] at h
      rw [← h]
      rfl

theorem modeStocks_standard (rawData : String) (rng : ℕ → JStr) :
    modeStocks rawData Mode.standard rng = standardStocks rng (splitRows rawData) := rfl

/-- C9 counterexample: in standard mode with the simplified-variant
remap, a one-cell data row yields a record whose display row holds an
undefined cell (at position 10, the ticker slot), so not every cell of
raw is a string. -/
theorem raw_cells_cex :
    (((processStockData cexSimplified Mode.standard rng0).toOption.getD
        dummyRes).processed.map (fun s => s.raw.get? 10)) = [some none] := by decide

/-- C9 (amended): a short data row is never rejected: every record of a
successful run has a display row at least as long as the active header
list, of length exactly the maximum of the header count and the source
cell count, and every padded trailing cell at position 9 or beyond
still holds the empty string in the returned records (padded cells
among positions 0 and 2 to 8 of a standard-shape row may instead be
overwritten by rank numerals).  Every cell of raw is a string in neto
mode and in full standard mode; in the simplified-variant remap a slot
whose source index lies beyond a short source row holds undefined
instead. -/
theorem raw_padding_spec :
    ∀ (rawData : String) (mode : Mode) (rng : ℕ → JStr) (res : ProcessResult),
      processStockData rawData mode rng = Except.ok res →
      ∀ s ∈ res.processed,
        res.headers.length ≤ s.raw.length ∧
        (∃ r ∈ modeDataRows rawData mode,
          s.raw.length = max res.headers.length r.length ∧
          ∀ j, 9 ≤ j → r.length ≤ j → j < s.raw.length →
            s.raw.get? j = some (some [])) ∧
        ((mode = Mode.neto ∨
            simplifiedHeader ((splitRows rawData).headD []) = false) →
          ∀ c ∈ s.raw, c.isSome = true) := by
  intro rawData mode rng res h s hs
  rw [processStockData_ok rawData mode rng res h] at hs
  rw [processStockData_ok_headers rawData mode rng res h]
  cases mode with
  | neto =>
    rw [modeStocks_neto] at hs
    refine rawProp_calculateRanks NETO_INVEST_HEADERS.length
      (modeDataRows rawData Mode.neto) _ _ ?_ s hs
    intro y hy
    unfold netoStocks at hy
    obtain ⟨y0, hy0, rfl⟩ := List.mem_map.mp hy
    obtain ⟨p, hp, rfl⟩ := List.mem_map.mp hy0
    have hraw : (netoPriceDiff (mkNetoStock rng p)).raw =
        padTo NETO_INVEST_HEADERS.length (p.2.map some) := by
      unfold netoPriceDiff
      split <;> rfl
    rw [hraw]
    refine ⟨by rw [padTo_length]; omega,
      ⟨p.2.map some, ?_, by rw [padTo_length, List.length_map], ?_⟩, ?_⟩
    · show p.2.map some ∈ ((splitRows rawData).drop 1).map (fun r => r.map some)
      exact List.mem_map_of_mem _ (snd_mem_of_mem_enum hp)
    · intro j hj9 hjr hjl
      rw [List.length_map] at hjr
      exact padTo_get_pad _ _ j (by rw [List.length_map]; omega) hjl
    · intro _
      refine padTo_isSome _ _ ?_
      intro c hc
      obtain ⟨x, _, rfl⟩ := List.mem_map.mp hc
      rfl
  | standard =>
    rw [modeStocks_standard] at hs
    refine rawProp_calculateRanks STANDARD_HEADERS.length
      (modeDataRows rawData Mode.standard) _ _ ?_ s hs
    intro y hy
    unfold standardStocks at hy
    obtain ⟨p, hp, rfl⟩ := List.mem_map.mp hy
    have hraw : (mkStandardStock rng p).raw = padTo STANDARD_HEADERS.length p.2 := rfl
    rw [hraw]
    refine ⟨by rw [padTo_length]; omega,
      ⟨p.2, ?_, by rw [padTo_length], fun j hj9 hjr hjl => padTo_get_pad _ _ j hjr hjl⟩,
      ?_⟩
    · show p.2 ∈ standardDataRows (splitRows rawData)
      exact snd_mem_of_mem_enum hp
    · intro hor
      rcases hor with hne | hsf
      · exact Mode.noConfusion hne
      · refine padTo_isSome _ _ ?_
        have hp2 : p.2 ∈ standardDataRows (splitRows rawData) := snd_mem_of_mem_enum hp
        unfold standardDataRows at hp2
        rw [if_neg (by rw [hsf]; exact Bool.false_ne_true)] at hp2
        obtain ⟨r0, hr0, heq⟩ := List.mem_map.mp hp2
        intro c hc
        rw [← heq] at hc
        obtain ⟨x, _, rfl⟩ := List.mem_map.mp hc
        rfl

/-- Witness for C9 at a concrete two-row neto input. -/
theorem raw_padding_spec_witness :
    ((processStockData sampleNeto Mode.neto rng0).toOption.getD dummyRes).headers.length ≤
      (((processStockData sampleNeto Mode.neto rng0).toOption.getD
        dummyRes).processed.getD 0 dummyStock).raw.length :=
  (raw_padding_spec sampleNeto Mode.neto rng0
    ((processStockData sampleNeto Mode.neto rng0).toOption.getD dummyRes)
    (eq_ok_of_toOption (by decide)) _ (by decide)).1

theorem mkId_truthy (c : Cell) (rng₁ rng₂ : ℕ → JStr) (i : ℕ)
    (h : truthy c = true) : mkId c rng₁ i = mkId c rng₂ i := by
  cases c with
  | none => exact Bool.noConfusion h
  | some t =>
    have ht : t.isEmpty = false := by
      have h1 : (!t.isEmpty) = true := h
      rwa [Bool.not_eq_true'] at h1
    show (if t.isEmpty then _ else t) = (if t.isEmpty then _ else t)
    rw [ht]
    rfl

/-- C10: when every data row yields a truthy ticker cell (position 1 of
the padded neto row, position 10 of the padded 33-column standard row),
processStockData is deterministic: two runs differing only in the
random oracle used for the id fallback return identical result
bundles. -/
theorem determinism :
    ∀ (rawData : String) (mode : Mode) (rng₁ rng₂ : ℕ → JStr),
      (mode = Mode.neto → ∀ row ∈ (splitRows rawData).drop 1,
        truthy (cellGet (padTo NETO_INVEST_HEADERS.length (row.map some)) 1) = true) →
      (mode = Mode.standard → ∀ r ∈ standardDataRows (splitRows rawData),
        truthy (cellGet (padTo STANDARD_HEADERS.length r) 10) = true) →
      processStockData rawData mode rng₁ = processStockData rawData mode rng₂ := by
  intro rawData mode rng₁ rng₂ hneto hstd
  unfold processStockData
  by_cases hc : (splitRows rawData).length < 2
  · rw [if_pos hc, if_pos hc]
  · rw [if_neg hc, if_neg hc]
    cases mode with
    | neto =>
      have hstocks : netoStocks rng₁ (splitRows rawData) =
          netoStocks rng₂ (splitRows rawData) := by
        unfold netoStocks
        refine congrArg _ (List.map_congr_left ?_)
        intro p hp
        simp only [mkNetoStock]
        rw [mkId_truthy _ rng₁ rng₂ p.1 (hneto rfl p.2 (snd_mem_of_mem_enum hp))]
      rw [hstocks]
    | standard =>
      have hstocks : standardStocks rng₁ (splitRows rawData) =
          standardStocks rng₂ (splitRows rawData) := by
        unfold standardStocks
        refine List.map_congr_left ?_
        intro p hp
        simp only [mkStandardStock]
        rw [mkId_truthy _ rng₁ rng₂ p.1 (hstd rfl p.2 (snd_mem_of_mem_enum hp))]
      rw [hstocks]

/-- Witness for C10 at a concrete two-row neto input with two distinct
random oracles. -/
theorem determinism_witness :
    processStockData sampleNeto Mode.neto (fun _ => ("a").data) =
      processStockData sampleNeto Mode.neto (fun _ => ("b").data) :=
  determinism sampleNeto Mode.neto (fun _ => ("a").data) (fun _ => ("b").data)
    (fun _ => by decide) (fun h => Mode.noConfusion h)

end InvestRadar
